import Mathlib

/-!
# Mutual-TLS peers: trust setup, listener gate and relay envelope

A shallow embedding of the four programs of the repository

* `service1/main.go`, `service2/main.go` (paths and peer URL written in the code),
* `deploy/service1/main.go`, `deploy/service2/main.go` (paths, port and peer URL read
  from environment variables),

followed by theorems about them.  The two peers are textual copies of one another up
to the peer name, so every function takes the peer as an argument; the two
directories are the namespaces `Base` and `Deploy`.

Everything the programs obtain from outside their own text (the filesystem, the
environment variables, the clock, the network, and the scanning of JSON text and of
numbers done inside the Go standard library) is a field of `World`.  The
policy-level behaviour of the library calls the programs depend on
(`AppendCertsFromPEM`, the client-certificate policy of the TLS handshake,
`ServeMux`, `http.Error`, `json.Unmarshal` into `Response`, `json.Encoder.Encode` of
a `Response`) is written out as definitions.  So is the RFC 3339 text of a
`time.Time`, both ways: `Time.MarshalJSON` refuses a year outside 0 to 9999 and a
zone offset of 24 hours or more, while the parsing accepts a zone hour of 24; the
encoder then writes nothing, and the handlers drop its error.
-/

namespace MTLS

/-! ## Certificates, pools and TLS configuration -/

/-- An X.509 certificate, identified by its DER bytes. -/
structure X509Certificate where
  raw : String
  deriving DecidableEq, Repr

/-- Go `tls.Certificate`: a certificate chain together with its private key. -/
structure Certificate where
  chain : List X509Certificate
  privateKey : String
  deriving DecidableEq, Repr

/-- Go `pem.Block`. -/
structure PemBlock where
  type : String
  headers : List (String × String)
  bytes : String
  deriving DecidableEq, Repr

/-- Go `x509.CertPool`: the certificates added so far. -/
structure CertPool where
  certs : List X509Certificate
  deriving DecidableEq, Repr

/-- Go `tls.ClientAuthType`, in the order of the library constants. -/
inductive ClientAuthType where
  | NoClientCert
  | RequestClientCert
  | RequireAnyClientCert
  | VerifyClientCertIfGiven
  | RequireAndVerifyClientCert
  deriving DecidableEq, Repr

/-- The fields of Go `tls.Config` that the programs set; a field that a composite
literal leaves out has its zero value. -/
structure TLSConfig where
  Certificates : List Certificate := []
  ClientAuth : ClientAuthType := .NoClientCert
  ClientCAs : Option CertPool := none
  RootCAs : Option CertPool := none
  ServerName : String := ""
  InsecureSkipVerify : Bool := false
  deriving DecidableEq, Repr

/-- Go `time.Duration` constant `time.Second`, in nanoseconds. -/
def Second : Nat := 1000000000

/-- Go `http.Client` with an `http.Transport`: the TLS client configuration and the
per-call timeout in nanoseconds. -/
structure HTTPClient where
  TLSClientConfig : TLSConfig
  Timeout : Nat
  deriving DecidableEq, Repr

/-- The service struct (`Service1` or `Service2`): its only field is the client
pointer, nil until `initMTLSClient` has run. -/
structure Service where
  client : Option HTTPClient := none
  deriving DecidableEq, Repr

/-! ## JSON values, Go values and time -/

/-- A JSON text as `encoding/json` scans it: the tree of its values.  Numbers keep
their literal; object members keep their order. -/
inductive JSON where
  | null
  | bool (b : Bool)
  | num (lit : String)
  | str (s : String)
  | arr (xs : List JSON)
  | obj (kvs : List (String × JSON))
  deriving Repr

/-- Go `time.Time` as far as the programs can observe it: the instant in
nanoseconds since the Unix epoch, the zone offset in seconds, and the monotonic
clock reading that `time.Now()` attaches. -/
structure Time where
  unixNano : Int
  offset : Int
  monotonic : Option Int
  deriving DecidableEq, Repr

/-- The zero `time.Time`: January 1, year 1, 00:00:00 UTC. -/
def Time.zero : Time := { unixNano := -62135596800000000000, offset := 0, monotonic := none }

/-- Seconds since the Unix epoch (Go `Time.Unix`). -/
def Time.unix (t : Time) : Int := t.unixNano / 1000000000

/-! ### The text of a time

Package `time` of the Go library writes a time with `Time.MarshalJSON` in the layout
`time.RFC3339Nano` and reads it with `Time.UnmarshalJSON`, which goes through
`time.Parse` with the layout `time.RFC3339`.  Both are written out here on lists of
characters, over the proleptic Gregorian calendar.
-/

/-- The year within a 400-year cycle that starts on a first of March, and the day
within that year, of a day within the cycle: centuries of 36524 days (the fourth
one a day longer), 4-year cycles of 1461 days, years of 365 days (the fourth one a
day longer). -/
def yearOfEra (doe : Nat) : Nat × Nat :=
  let c := min (doe / 36524) 3
  let doc := doe - c * 36524
  let q := doc / 1461
  let doq := doc - q * 1461
  let yr := min (doq / 365) 3
  (c * 100 + q * 4 + yr, doq - yr * 365)

/-- The month (1 to 12) and the day of the month of a day within a year that
starts on the first of March. -/
def monthDay (doy : Nat) : Nat × Nat :=
  let mp := (5 * doy + 2) / 153
  (if mp < 10 then mp + 3 else mp - 9, doy - (153 * mp + 2) / 5 + 1)

/-- The calendar date (year, month, day) of a day number counted from 1970-01-01,
in the proleptic Gregorian calendar. -/
def civilFromDays (days : Int) : Int × Nat × Nat :=
  let z := days + 719468
  let era := z / 146097
  let doe := (z % 146097).toNat
  let yd := yearOfEra doe
  let md := monthDay yd.2
  ((yd.1 : Int) + era * 400 + (if md.1 ≤ 2 then 1 else 0), md.1, md.2)

/-- The day number counted from 1970-01-01 of a calendar date. -/
def daysFromCivil (year : Int) (month day : Nat) : Int :=
  let y := if month ≤ 2 then year - 1 else year
  let era := y / 400
  let yoe := (y % 400).toNat
  let mp := if month > 2 then month - 3 else month + 9
  let doy := (153 * mp + 2) / 5 + day - 1
  let doe := yoe * 365 + yoe / 4 - yoe / 100 + doy
  era * 146097 + (doe : Int) - 719468

/-- The decimal digit character of the last digit of a number. -/
def digit (n : Nat) : Char := Char.ofNat (48 + n % 10)

/-- Whether a character is a decimal digit. -/
def isDigit (c : Char) : Bool := decide (48 ≤ c.toNat) && decide (c.toNat ≤ 57)

/-- The value of a decimal digit character. -/
def digitValue (c : Char) : Nat := c.toNat - 48

/-- A number below 100 in two digits. -/
def pad2 (n : Nat) : List Char := [digit (n / 10), digit n]

/-- A number below 10000 in four digits. -/
def pad4 (n : Nat) : List Char := [digit (n / 1000), digit (n / 100), digit (n / 10), digit n]

/-- The digits of a number below `10 ^ k` written with `k` digits, without the
zeros at the end. -/
def fracDigits : Nat → Nat → List Char
  | 0, _ => []
  | k + 1, n => if n = 0 then [] else digit (n / 10 ^ k) :: fracDigits k (n % 10 ^ k)

/-- The fraction of a second in the layout `.999999999`: nothing for zero,
otherwise a period and the nine digits of the nanoseconds without the zeros at the
end. -/
def formatFraction (nsec : Nat) : List Char :=
  if nsec = 0 then [] else '.' :: fracDigits 9 nsec

/-- The zone in the layout `Z07:00`: `Z` for the offset zero, otherwise the sign,
the hours and the minutes of the offset in minutes.  The division of Go rounds
toward zero, so the minutes are those of the absolute value of the offset, and
their sign is negative from an offset of minus one minute on.  The hours are
written in two digits, which is their text below 100 hours. -/
def formatZone (offset : Int) : List Char :=
  if offset = 0 then ['Z']
  else
    let zone := offset.natAbs / 60
    (if offset ≤ -60 then '-' else '+') :: (pad2 (zone / 60) ++ ':' :: pad2 (zone % 60))

/-- The seconds since 1970-01-01 on the wall clock of the zone of a time. -/
def Time.abs (t : Time) : Int := t.unixNano / 1000000000 + t.offset

/-- The nanoseconds within the second of a time. -/
def Time.nsec (t : Time) : Nat := (t.unixNano % 1000000000).toNat

/-- The calendar year of a time in its zone. -/
@[irreducible]
def Time.year (t : Time) : Int := (civilFromDays (t.abs / 86400)).1

/-- The text of a time in the layout `2006-01-02T15:04:05.999999999Z07:00`
(`time.RFC3339Nano`).  The year is written in four digits, which is its text from
the year 0 to the year 9999; `Time.MarshalJSON` gives no text for other years. -/
def formatRFC3339Nano (t : Time) : List Char :=
  let date := civilFromDays (t.abs / 86400)
  let secs := (t.abs % 86400).toNat
  pad4 date.1.toNat ++ '-' :: (pad2 date.2.1 ++ '-' :: (pad2 date.2.2 ++ 'T' ::
    (pad2 (secs / 3600) ++ ':' :: (pad2 (secs % 3600 / 60) ++ ':' ::
      (pad2 (secs % 60) ++ (formatFraction t.nsec ++ formatZone t.offset))))))

/-- Reads a number of one or two digits (`getnum` of package `time`); with `fixed`
there have to be two digits. -/
def getnum (fixed : Bool) : List Char → Option (Nat × List Char)
  | [] => none
  | [a] => if isDigit a && !fixed then some (digitValue a, []) else none
  | a :: b :: rest =>
    if !isDigit a then none
    else if !isDigit b then
      if fixed then none else some (digitValue a, b :: rest)
    else some (digitValue a * 10 + digitValue b, rest)

/-- Reads the given character. -/
def expect (c : Char) : List Char → Option (List Char)
  | [] => none
  | a :: rest => if a = c then some rest else none

/-- Reads a year of four digits. -/
def getYear : List Char → Option (Nat × List Char)
  | a :: b :: c :: d :: rest =>
    if isDigit a && isDigit b && isDigit c && isDigit d then
      some (digitValue a * 1000 + digitValue b * 100 + digitValue c * 10 + digitValue d, rest)
    else none
  | _ => none

/-- The value of up to `k` digits as the leading digits of a number of `k` digits
(`parseNanoseconds` of package `time` for `k = 9`). -/
def leadingDigits : Nat → List Char → Nat
  | k + 1, c :: cs => digitValue c * 10 ^ k + leadingDigits k cs
  | _, _ => 0

/-- Reads a fraction of a second where the text goes on with a period or comma and
a digit; all digits that follow are read, the first nine count. -/
def getFraction : List Char → Nat × List Char
  | c :: d :: rest =>
    if (c = '.' || c = ',') && isDigit d then
      (leadingDigits 9 ((d :: rest).takeWhile isDigit), (d :: rest).dropWhile isDigit)
    else (0, c :: d :: rest)
  | rest => (0, rest)

/-- Reads the zone at the end of the text: `Z`, or a sign with hours and minutes.
Hours up to 24 and minutes up to 60 are let through, as `time.Parse` does. -/
def getZone : List Char → Except String Int
  | ['Z'] => .ok 0
  | [sign, h1, h2, colon, m1, m2] =>
    if (sign = '+' || sign = '-') && colon = ':' && isDigit h1 && isDigit h2
        && isDigit m1 && isDigit m2 then
      let hr := digitValue h1 * 10 + digitValue h2
      let mm := digitValue m1 * 10 + digitValue m2
      if hr > 24 then .error "parsing time: time zone offset hour out of range"
      else if mm > 60 then .error "parsing time: time zone offset minute out of range"
      else .ok ((if sign = '-' then -1 else 1) * (((hr * 60 + mm) * 60 : Nat) : Int))
    else .error "parsing time: cannot parse zone"
  | _ => .error "parsing time: cannot parse zone"

/-- Reads the date `2006-01-02` and gives its day number; the month has to be one
of the twelve and the day a day of that month. -/
def getDate (s : List Char) : Except String (Int × List Char) :=
  match getYear s with
  | none => .error "parsing time: cannot parse year"
  | some (year, s) =>
    match expect '-' s with
    | none => .error "parsing time: cannot parse"
    | some s =>
      match getnum true s with
      | none => .error "parsing time: cannot parse month"
      | some (month, s) =>
        match expect '-' s with
        | none => .error "parsing time: cannot parse"
        | some s =>
          match getnum true s with
          | none => .error "parsing time: cannot parse day"
          | some (day, s) =>
            if month = 0 ∨ 12 < month then .error "parsing time: month out of range"
            else if civilFromDays (daysFromCivil year month day) ≠ ((year : Int), month, day) then
              .error "parsing time: day out of range"
            else .ok (daysFromCivil year month day, s)

/-- Reads the clock `T15:04:05` and gives the second of the day. -/
def getClock (s : List Char) : Except String (Nat × List Char) :=
  match expect 'T' s with
  | none => .error "parsing time: cannot parse"
  | some s =>
    match getnum false s with
    | none => .error "parsing time: cannot parse hour"
    | some (hour, s) =>
      match expect ':' s with
      | none => .error "parsing time: cannot parse"
      | some s =>
        match getnum true s with
        | none => .error "parsing time: cannot parse minute"
        | some (min, s) =>
          match expect ':' s with
          | none => .error "parsing time: cannot parse"
          | some s =>
            match getnum true s with
            | none => .error "parsing time: cannot parse second"
            | some (sec, s) =>
              if 24 ≤ hour then .error "parsing time: hour out of range"
              else if 60 ≤ min then .error "parsing time: minute out of range"
              else if 60 ≤ sec then .error "parsing time: second out of range"
              else .ok (hour * 3600 + min * 60 + sec, s)

/-- Reads a time in the layout `2006-01-02T15:04:05Z07:00` with an optional
fraction of a second (`time.Parse` with `time.RFC3339`). -/
def parseRFC3339 (s : List Char) : Except String Time :=
  match getDate s with
  | .error e => .error e
  | .ok (days, s) =>
    match getClock s with
    | .error e => .error e
    | .ok (secs, s) =>
      match getZone (getFraction s).2 with
      | .error e => .error e
      | .ok offset =>
        .ok { unixNano := (days * 86400 + (secs : Int) - offset) * 1000000000
                + ((getFraction s).1 : Int)
              offset := offset
              monotonic := none }

/-- Whether `Time.MarshalJSON` accepts a time: the year in its zone has four digits
and the hours of its zone offset are below 24. -/
def Time.encodable (t : Time) : Bool :=
  decide (0 ≤ t.year) && decide (t.year ≤ 9999) && decide (t.offset.natAbs / 60 / 60 < 24)

/-- Whether a time is one that the system clock gives: `Time.MarshalJSON` accepts it
and its zone offset is a number of whole minutes. -/
def Time.clockReading (t : Time) : Bool :=
  t.encodable && decide (t.offset % 60 = 0)

/-- A Go `float64`, by its IEEE 754 bit pattern. -/
structure Float64 where
  bits : Nat
  deriving DecidableEq, Repr

/-- Whether a float64 is neither an infinity nor a NaN: the eleven bits of its
exponent are not all ones. -/
def Float64.isFinite (f : Float64) : Bool := decide (f.bits / 2 ^ 52 % 2048 ≠ 2047)

/-- The dynamic values that the field `Data any` of `Response` holds in these
programs: what the handlers store there and what `json.Unmarshal` stores into an
empty interface. -/
inductive GoValue where
  | nil
  | bool (b : Bool)
  | int (n : Int)
  | float64 (f : Float64)
  | string (s : String)
  | strings (xs : List String)
  | slice (xs : List GoValue)
  | map (kvs : List (String × GoValue))
  | response (Service Message : String) (Timestamp : Time) (Data : GoValue)
  deriving Repr

/-- The struct `Response` of `main.go`. -/
structure Response where
  Service : String := ""
  Message : String := ""
  Timestamp : Time := Time.zero
  Data : GoValue := .nil

/-- A `Response` stored in an interface value. -/
def Response.toValue (r : Response) : GoValue :=
  .response r.Service r.Message r.Timestamp r.Data

/-! ## The world outside the program text -/

/-- What a body read with `io.ReadAll` yields, and the status line, of a response
that `client.Get` returned without error. -/
structure HTTPResponse where
  StatusCode : Nat
  Body : Except String String

/-- The surroundings of a running peer.  Errors are the text of `err.Error()`. -/
structure World where
  /-- Environment variables, `os.Getenv`. -/
  getenv : String → String
  /-- File contents, `os.ReadFile`. -/
  readFile : String → Except String String
  /-- Key pair files, `tls.LoadX509KeyPair certFile keyFile`. -/
  loadX509KeyPair : String → String → Except String Certificate
  /-- The blocks that repeated `pem.Decode` finds in a non-empty input. -/
  pemBlocks : String → List PemBlock
  /-- DER parsing, `x509.ParseCertificate`. -/
  parseCertificate : String → Except String X509Certificate
  /-- Chain validation of a presented certificate list against a pool of roots
  (`x509.Certificate.Verify` on the leaf, the rest as intermediates). -/
  verifyChain : CertPool → List X509Certificate → Bool
  /-- What `client.Get url` returns for a given client. -/
  get : HTTPClient → String → Except String HTTPResponse
  /-- The clock, `time.Now()`. -/
  now : Time
  /-- The clock is set to a year from 0 to 9999 in a zone whose offset is a number of
  whole minutes below 24 hours. -/
  nowInRange : now.clockReading = true
  /-- The syntax pass of `json.Unmarshal`: the value tree of a valid JSON text, or
  the syntax error. -/
  scan : String → Except String JSON
  /-- Number literal of a float64, `strconv.FormatFloat`. -/
  formatFloat : Float64 → String
  /-- Number literal of a JSON text to float64, `strconv.ParseFloat` as the decoder
  calls it. -/
  parseFloat : String → Except String Float64
  /-- A number literal that is out of range is an error of `strconv.ParseFloat`, so
  what the decoder gets from it is finite. -/
  parseFloatFinite : ∀ lit f, parseFloat lit = .ok f → f.isFinite = true
  /-- The case folding under which `encoding/json` compares an object key with a
  field name when the two are not identical. -/
  foldName : String → String
  /-- The roots a verification uses when the configuration names no pool. -/
  systemRoots : CertPool

/-- The text of a time in the layout `time.RFC3339Nano`, the same in every world. -/
def World.formatTime (_w : World) (t : Time) : String := String.mk (formatRFC3339Nano t)

/-- What `Time.UnmarshalJSON` makes of the content of a JSON string, the same in
every world. -/
def World.parseTime (_w : World) (text : String) : Except String Time :=
  parseRFC3339 text.data

/-- Go `Time.MarshalJSON`, without the quotes: the text of the time, refused when
the year does not have four digits or the zone offset has 24 hours or more. -/
def World.marshalTime (w : World) (t : Time) : Except String String :=
  if !(decide (0 ≤ t.year) && decide (t.year ≤ 9999)) then
    .error "Time.MarshalJSON: year outside of range [0,9999]"
  else if !decide (t.offset.natAbs / 60 / 60 < 24) then
    .error "Time.MarshalJSON: timezone hour outside of range [0,23]"
  else .ok (w.formatTime t)

/-! ## Peers and configuration -/

/-- Which of the two peers a program is. -/
inductive Peer where
  | service1
  | service2
  deriving DecidableEq, Repr

/-- The peer name as it is written in `ServerName` and in `Response.Service`. -/
def Peer.name : Peer → String
  | .service1 => "service1"
  | .service2 => "service2"

/-- The peer that this peer calls. -/
def Peer.other : Peer → Peer
  | .service1 => .service2
  | .service2 => .service1

/-- The struct `Config` of the `deploy` programs; `PeerURL` is the field
`Service2URL` of service1 and `Service1URL` of service2. -/
structure Config where
  Port : String
  CertPath : String
  KeyPath : String
  CAPath : String
  ClientCertPath : String
  ClientKeyPath : String
  PeerURL : String
  deriving DecidableEq, Repr

/-- Function `getEnv` of the `deploy` programs. -/
def getEnv (w : World) (key defaultValue : String) : String :=
  if w.getenv key ≠ "" then w.getenv key else defaultValue

/-- Function `getConfig` of the `deploy` programs. -/
def getConfig (w : World) : Peer → Config
  | .service1 =>
    { Port := getEnv w "PORT" "8443"
      CertPath := getEnv w "TLS_CERT_PATH" "/certs/service1-cert.pem"
      KeyPath := getEnv w "TLS_KEY_PATH" "/certs/service1-key.pem"
      CAPath := getEnv w "CA_CERT_PATH" "/certs/ca.pem"
      ClientCertPath := getEnv w "CLIENT_CERT_PATH" "/certs/service1-client-cert.pem"
      ClientKeyPath := getEnv w "CLIENT_KEY_PATH" "/certs/service1-client-key.pem"
      PeerURL := getEnv w "SERVICE2_URL" "https://service2:8444" }
  | .service2 =>
    { Port := getEnv w "PORT" "8444"
      CertPath := getEnv w "TLS_CERT_PATH" "/certs/service2-cert.pem"
      KeyPath := getEnv w "TLS_KEY_PATH" "/certs/service2-key.pem"
      CAPath := getEnv w "CA_CERT_PATH" "/certs/ca.pem"
      ClientCertPath := getEnv w "CLIENT_CERT_PATH" "/certs/service2-client-cert.pem"
      ClientKeyPath := getEnv w "CLIENT_KEY_PATH" "/certs/service2-client-key.pem"
      PeerURL := getEnv w "SERVICE1_URL" "https://service1:8443" }

/-- The paths, port and peer URL that the programs outside `deploy` have written
into their code, collected in the shape of `Config`. -/
def Base.literals : Peer → Config
  | .service1 =>
    { Port := "8443"
      CertPath := "/certs/service1-cert.pem"
      KeyPath := "/certs/service1-key.pem"
      CAPath := "/certs/ca.pem"
      ClientCertPath := "/certs/service1-client-cert.pem"
      ClientKeyPath := "/certs/service1-client-key.pem"
      PeerURL := "https://service2:8444" }
  | .service2 =>
    { Port := "8444"
      CertPath := "/certs/service2-cert.pem"
      KeyPath := "/certs/service2-key.pem"
      CAPath := "/certs/ca.pem"
      ClientCertPath := "/certs/service2-client-cert.pem"
      ClientKeyPath := "/certs/service2-client-key.pem"
      PeerURL := "https://service1:8443" }

/-! ## Trust store loading -/

/-- Go `x509.NewCertPool()`. -/
def NewCertPool : CertPool := { certs := [] }

/-- A block that `AppendCertsFromPEM` adds to the pool: a `CERTIFICATE` block
without headers whose bytes parse as a certificate. -/
def parseableCertificate (w : World) (block : PemBlock) : Option X509Certificate :=
  if block.type ≠ "CERTIFICATE" ∨ block.headers.length ≠ 0 then none
  else
    match w.parseCertificate block.bytes with
    | .error _ => none
    | .ok cert => some cert

/-- The blocks the loop of `AppendCertsFromPEM` visits: none when the input has
length zero, otherwise those that repeated `pem.Decode` yields. -/
def bundleBlocks (w : World) (pemCerts : String) : List PemBlock :=
  if pemCerts.length = 0 then [] else w.pemBlocks pemCerts

/-- Go `(*CertPool).AppendCertsFromPEM`: every block is visited; a block that is not
a headerless `CERTIFICATE` block, or does not parse, is skipped; the result is true
when at least one certificate was added.  Returns the pool after the call and the
boolean. -/
def CertPool.AppendCertsFromPEM (w : World) (s : CertPool) (pemCerts : String) :
    CertPool × Bool :=
  (bundleBlocks w pemCerts).foldl
    (fun acc block =>
      match parseableCertificate w block with
      | none => acc
      | some cert => ({ certs := acc.1.certs ++ [cert] }, true))
    (s, false)

/-! ## `setupMTLSServer` and `initMTLSClient` -/

/-- Function `setupMTLSServer` of `service1/main.go` and `service2/main.go`. -/
def Base.setupMTLSServer (w : World) (p : Peer) : Except String TLSConfig :=
  match w.loadX509KeyPair (Base.literals p).CertPath (Base.literals p).KeyPath with
  | .error err => .error ("failed to load server certificate: " ++ err)
  | .ok cert =>
    match w.readFile "/certs/ca.pem" with
    | .error err => .error ("failed to read CA certificate: " ++ err)
    | .ok caCert =>
      let caCertPool := NewCertPool.AppendCertsFromPEM w caCert
      if !caCertPool.2 then .error "failed to parse CA certificate"
      else
        .ok { Certificates := [cert]
              ClientAuth := .RequireAndVerifyClientCert
              ClientCAs := some caCertPool.1
              ServerName := p.name }

/-- Method `initMTLSClient` of `service1/main.go` and `service2/main.go`; the
service with its client set is returned in place of the mutation. -/
def Base.initMTLSClient (w : World) (p : Peer) (_s : Service) : Except String Service :=
  match w.loadX509KeyPair (Base.literals p).ClientCertPath (Base.literals p).ClientKeyPath with
  | .error err => .error ("failed to load client certificate: " ++ err)
  | .ok cert =>
    match w.readFile "/certs/ca.pem" with
    | .error err => .error ("failed to read CA certificate: " ++ err)
    | .ok caCert =>
      let caCertPool := NewCertPool.AppendCertsFromPEM w caCert
      if !caCertPool.2 then .error "failed to parse CA certificate"
      else
        let tlsConfig : TLSConfig :=
          { Certificates := [cert]
            RootCAs := some caCertPool.1
            ServerName := p.other.name }
        .ok { client := some { TLSClientConfig := tlsConfig, Timeout := 30 * Second } }

/-- Function `setupMTLSServer` of `deploy/service1/main.go` and
`deploy/service2/main.go`. -/
def Deploy.setupMTLSServer (w : World) (p : Peer) (config : Config) :
    Except String TLSConfig :=
  match w.loadX509KeyPair config.CertPath config.KeyPath with
  | .error err => .error ("failed to load server certificate: " ++ err)
  | .ok cert =>
    match w.readFile config.CAPath with
    | .error err => .error ("failed to read CA certificate: " ++ err)
    | .ok caCert =>
      let caCertPool := NewCertPool.AppendCertsFromPEM w caCert
      if !caCertPool.2 then .error "failed to parse CA certificate"
      else
        .ok { Certificates := [cert]
              ClientAuth := .RequireAndVerifyClientCert
              ClientCAs := some caCertPool.1
              ServerName := p.name }

/-- Method `initMTLSClient` of `deploy/service1/main.go` and
`deploy/service2/main.go`. -/
def Deploy.initMTLSClient (w : World) (_p : Peer) (_s : Service) (config : Config) :
    Except String Service :=
  match w.loadX509KeyPair config.ClientCertPath config.ClientKeyPath with
  | .error err => .error ("failed to load client certificate: " ++ err)
  | .ok cert =>
    match w.readFile config.CAPath with
    | .error err => .error ("failed to read CA certificate: " ++ err)
    | .ok caCert =>
      let caCertPool := NewCertPool.AppendCertsFromPEM w caCert
      if !caCertPool.2 then .error "failed to parse CA certificate"
      else
        let tlsConfig : TLSConfig :=
          { Certificates := [cert]
            RootCAs := some caCertPool.1
            InsecureSkipVerify := false }
        .ok { client := some { TLSClientConfig := tlsConfig, Timeout := 30 * Second } }

/-- The two families of programs. -/
inductive Variant where
  | base
  | deploy
  deriving DecidableEq, Repr

/-- The configuration a program of the given family works with: the literals of its
code, or the value `main` obtained from `getConfig`. -/
def Variant.configured (v : Variant) (p : Peer) (config : Config) : Config :=
  match v with
  | .base => Base.literals p
  | .deploy => config

/-- Function `setupMTLSServer` of the program of family `v` for peer `p`. -/
def setupMTLSServer (w : World) (v : Variant) (p : Peer) (config : Config) :
    Except String TLSConfig :=
  match v with
  | .base => Base.setupMTLSServer w p
  | .deploy => Deploy.setupMTLSServer w p config

/-- Method `initMTLSClient` of the program of family `v` for peer `p`. -/
def initMTLSClient (w : World) (v : Variant) (p : Peer) (s : Service) (config : Config) :
    Except String Service :=
  match v with
  | .base => Base.initMTLSClient w p s
  | .deploy => Deploy.initMTLSClient w p s config

/-! ## Encoding a `Response` (`json.Marshal`) -/

/-- Decimal literal of a Go `int`, `strconv.FormatInt n 10`. -/
def intLit (n : Int) : String := toString n

/-- Byte-wise order on strings, `strings.Compare a b <= 0`, by which the encoder
sorts the keys of a map. -/
def keyLE : List Char → List Char → Bool
  | [], _ => true
  | _ :: _, [] => false
  | a :: as, b :: bs =>
    if a.toNat < b.toNat then true
    else if b.toNat < a.toNat then false
    else keyLE as bs

/-- Insertion of one member into a list of members sorted by key. -/
def insertMember (kv : String × JSON) : List (String × JSON) → List (String × JSON)
  | [] => [kv]
  | x :: xs => if keyLE kv.1.data x.1.data then kv :: x :: xs else x :: insertMember kv xs

/-- The members of an encoded map, sorted by key. -/
def sortMembers : List (String × JSON) → List (String × JSON)
  | [] => []
  | x :: xs => insertMember x (sortMembers xs)

mutual
/-- The JSON value that `json.Marshal` writes for a Go value, or its error.  A
`Response` is an object with its fields in declaration order under the names of the
field tags; `data` has the option `omitempty`, which leaves the member out when the
interface is nil.  The values that are refused are an infinity or NaN and a time
that `Time.MarshalJSON` refuses. -/
def marshalValue (w : World) : GoValue → Except String JSON
  | .nil => .ok .null
  | .bool b => .ok (.bool b)
  | .int n => .ok (.num (intLit n))
  | .float64 f =>
    if f.isFinite then .ok (.num (w.formatFloat f))
    else .error ("json: unsupported value: " ++ w.formatFloat f)
  | .string s => .ok (.str s)
  | .strings xs => .ok (.arr (xs.map JSON.str))
  | .slice xs =>
    match marshalValues w xs with
    | .error e => .error e
    | .ok ys => .ok (.arr ys)
  | .map kvs =>
    match marshalMembers w kvs with
    | .error e => .error e
    | .ok ys => .ok (.obj (sortMembers ys))
  | .response service message timestamp data =>
    match w.marshalTime timestamp with
    | .error e => .error e
    | .ok text =>
      match data with
      | .nil =>
        .ok (.obj [("service", .str service), ("message", .str message),
                   ("timestamp", .str text)])
      | d =>
        match marshalValue w d with
        | .error e => .error e
        | .ok y =>
          .ok (.obj [("service", .str service), ("message", .str message),
                     ("timestamp", .str text), ("data", y)])
/-- The elements of an encoded slice. -/
def marshalValues (w : World) : List GoValue → Except String (List JSON)
  | [] => .ok []
  | x :: xs =>
    match marshalValue w x with
    | .error e => .error e
    | .ok y =>
      match marshalValues w xs with
      | .error e => .error e
      | .ok ys => .ok (y :: ys)
/-- The members of an encoded map, in the order of the association list. -/
def marshalMembers (w : World) :
    List (String × GoValue) → Except String (List (String × JSON))
  | [] => .ok []
  | (k, v) :: kvs =>
    match marshalValue w v with
    | .error e => .error e
    | .ok y =>
      match marshalMembers w kvs with
      | .error e => .error e
      | .ok ys => .ok ((k, y) :: ys)
end

/-- Go `json.Marshal` of a `Response`. -/
def Marshal (w : World) (r : Response) : Except String JSON := marshalValue w r.toValue

/-! ## Decoding into a `Response` (`json.Unmarshal`) -/

/-- Go map assignment `m[k] = v` on an association list. -/
def setKey (k : String) (v : GoValue) : List (String × GoValue) → List (String × GoValue)
  | [] => [(k, v)]
  | x :: xs => if x.1 = k then (k, v) :: xs else x :: setKey k v xs

mutual
/-- Decoding of a JSON value into an empty interface: null is nil, a number is a
float64, an array is a `[]interface{}`, an object is a `map[string]interface{}`.
The only failure is a number literal that `strconv.ParseFloat` rejects. -/
def decodeAny (w : World) : JSON → Except String GoValue
  | .null => .ok .nil
  | .bool b => .ok (.bool b)
  | .num lit =>
    match w.parseFloat lit with
    | .error _ => .error ("json: cannot unmarshal number " ++ lit ++ " into Go value of type float64")
    | .ok f => .ok (.float64 f)
  | .str s => .ok (.string s)
  | .arr xs =>
    match decodeAnys w xs with
    | .error e => .error e
    | .ok vs => .ok (.slice vs)
  | .obj kvs =>
    match decodeMembers w kvs [] with
    | .error e => .error e
    | .ok m => .ok (.map m)
/-- Decoding of the elements of an array. -/
def decodeAnys (w : World) : List JSON → Except String (List GoValue)
  | [] => .ok []
  | x :: xs =>
    match decodeAny w x with
    | .error e => .error e
    | .ok v =>
      match decodeAnys w xs with
      | .error e => .error e
      | .ok vs => .ok (v :: vs)
/-- Decoding of the members of an object into a map, a later member replacing an
earlier one with the same key. -/
def decodeMembers (w : World) :
    List (String × JSON) → List (String × GoValue) → Except String (List (String × GoValue))
  | [], m => .ok m
  | (k, x) :: kvs, m =>
    match decodeAny w x with
    | .error e => .error e
    | .ok v => decodeMembers w kvs (setKey k v m)
end

/-- The fields of `Response`. -/
inductive Field where
  | Service
  | Message
  | Timestamp
  | Data
  deriving DecidableEq, Repr

/-- The name of a field in JSON, from its tag. -/
def Field.tag : Field → String
  | .Service => "service"
  | .Message => "message"
  | .Timestamp => "timestamp"
  | .Data => "data"

/-- The field whose tag is identical to an object key. -/
def exactField (key : String) : Option Field :=
  if key = "service" then some .Service
  else if key = "message" then some .Message
  else if key = "timestamp" then some .Timestamp
  else if key = "data" then some .Data
  else none

/-- The field whose tag equals an object key under the case folding of
`encoding/json`. -/
def foldedField (w : World) (key : String) : Option Field :=
  if w.foldName key = w.foldName "service" then some .Service
  else if w.foldName key = w.foldName "message" then some .Message
  else if w.foldName key = w.foldName "timestamp" then some .Timestamp
  else if w.foldName key = w.foldName "data" then some .Data
  else none

/-- The field that an object key selects, if any: the field with exactly this tag,
and failing that the field with this tag up to case folding. -/
def fieldFor (w : World) (key : String) : Option Field :=
  match exactField key with
  | some f => some f
  | none => foldedField w key

/-- The name of the kind of a JSON value in the text of an `UnmarshalTypeError`. -/
def JSON.kind : JSON → String
  | .null => "null"
  | .bool _ => "bool"
  | .num _ => "number"
  | .str _ => "string"
  | .arr _ => "array"
  | .obj _ => "object"

/-- The state of the decoder while it fills a `Response`: the struct so far and the
first type error it has saved (it goes on decoding after such an error and reports
it at the end). -/
structure DecodeState where
  value : Response
  savedError : Option String

/-- Records a type error unless one is already saved (`d.saveError`). -/
def DecodeState.saveError (st : DecodeState) (err : String) : DecodeState :=
  match st.savedError with
  | none => { st with savedError := some err }
  | some _ => st

/-- Storing one JSON value into one field of the `Response`.  A null leaves a
string or a time as it is and sets the interface to nil.  A string field takes a
JSON string and saves a type error for anything else.  The time field hands the
value to `Time.UnmarshalJSON`, whose error ends the decoding at once.  The
interface field takes any value. -/
def storeField (w : World) (st : DecodeState) (f : Field) (x : JSON) :
    Except String DecodeState :=
  match f, x with
  | .Service, .null => .ok st
  | .Service, .str s => .ok { st with value := { st.value with Service := s } }
  | .Service, x =>
    .ok (st.saveError ("json: cannot unmarshal " ++ x.kind ++
      " into Go struct field Response.service of type string"))
  | .Message, .null => .ok st
  | .Message, .str s => .ok { st with value := { st.value with Message := s } }
  | .Message, x =>
    .ok (st.saveError ("json: cannot unmarshal " ++ x.kind ++
      " into Go struct field Response.message of type string"))
  | .Timestamp, .null => .ok st
  | .Timestamp, .str s =>
    match w.parseTime s with
    | .error e => .error e
    | .ok t => .ok { st with value := { st.value with Timestamp := t } }
  | .Timestamp, _ => .error "Time.UnmarshalJSON: input is not a JSON string"
  | .Data, x =>
    match decodeAny w x with
    | .error e => .ok (st.saveError e)
    | .ok v => .ok { st with value := { st.value with Data := v } }

/-- Decoding of the members of an object into the `Response`, in document order;
a key that selects no field is skipped. -/
def storeMembers (w : World) :
    List (String × JSON) → DecodeState → Except String DecodeState
  | [], st => .ok st
  | (k, x) :: kvs, st =>
    match fieldFor w k with
    | none => storeMembers w kvs st
    | some f =>
      match storeField w st f x with
      | .error e => .error e
      | .ok st => storeMembers w kvs st

/-- Decoding of a scanned JSON value into a `Response` variable holding `init`: an
object fills the fields its members select, null changes nothing, and any other
value is a type error. -/
def unmarshalValue (w : World) (init : Response) (x : JSON) :
    Except String Response :=
  match x with
  | .null => .ok init
  | .obj kvs =>
    match storeMembers w kvs { value := init, savedError := none } with
    | .error e => .error e
    | .ok st =>
      match st.savedError with
      | some e => .error e
      | none => .ok st.value
  | x => .error ("json: cannot unmarshal " ++ x.kind ++ " into Go value of type main.Response")

/-- Go `json.Unmarshal data v` with `v` pointing at a `Response` holding `init`: the
syntax pass first, then the decoding of the value. -/
def Unmarshal (w : World) (data : String) (init : Response) : Except String Response :=
  match w.scan data with
  | .error e => .error e
  | .ok x => unmarshalValue w init x

/-! ## The response writer -/

/-- One `Write` to an `http.ResponseWriter`: a line of text, or the line that
`json.Encoder.Encode` writes for a value. -/
inductive BodyPart where
  | text (s : String)
  | json (x : JSON)

/-- An `http.ResponseWriter` as an explicit state: the header map, whether the
status line has been written, the status code, and what was written to the body. -/
structure ResponseWriter where
  header : List (String × String) := []
  wroteHeader : Bool := false
  status : Nat := 0
  body : List BodyPart := []

/-- Go `Header.Del`. -/
def ResponseWriter.delHeader (rw : ResponseWriter) (key : String) : ResponseWriter :=
  { rw with header := rw.header.filter (fun kv => kv.1 ≠ key) }

/-- Go `Header.Set`. -/
def ResponseWriter.setHeader (rw : ResponseWriter) (key value : String) : ResponseWriter :=
  { rw with header := rw.header.filter (fun kv => kv.1 ≠ key) ++ [(key, value)] }

/-- Go `Header.Get`. -/
def ResponseWriter.getHeader (rw : ResponseWriter) (key : String) : Option String :=
  (rw.header.find? (fun kv => kv.1 = key)).map (fun kv => kv.2)

/-- Go `ResponseWriter.WriteHeader`: the first call fixes the status code. -/
def ResponseWriter.WriteHeader (rw : ResponseWriter) (statusCode : Nat) : ResponseWriter :=
  if rw.wroteHeader then rw else { rw with wroteHeader := true, status := statusCode }

/-- Go `ResponseWriter.Write`: a write before any `WriteHeader` sends status 200
first. -/
def ResponseWriter.Write (rw : ResponseWriter) (part : BodyPart) : ResponseWriter :=
  let rw := if rw.wroteHeader then rw else rw.WriteHeader 200
  { rw with body := rw.body ++ [part] }

/-- Go `http.StatusInternalServerError`. -/
def StatusInternalServerError : Nat := 500

/-- Go `http.StatusNotFound`. -/
def StatusNotFound : Nat := 404

/-- Go `http.Error`: a plain-text reply with the given status code. -/
def Error (rw : ResponseWriter) (error : String) (code : Nat) : ResponseWriter :=
  let rw := rw.delHeader "Content-Length"
  let rw := rw.setHeader "Content-Type" "text/plain; charset=utf-8"
  let rw := rw.setHeader "X-Content-Type-Options" "nosniff"
  let rw := rw.WriteHeader code
  rw.Write (.text (error ++ "\n"))

/-- The call `json.NewEncoder(w).Encode(response)` with its error dropped, as the
handlers make it: one JSON line is written, and nothing at all when the value cannot
be encoded. -/
def Encode (w : World) (rw : ResponseWriter) (response : Response) : ResponseWriter :=
  match Marshal w response with
  | .error _ => rw
  | .ok x => rw.Write (.json x)

/-- What the server does with the response writer after a handler has returned: a
handler that wrote nothing gets status 200 and an empty body sent for it. -/
def ResponseWriter.finish (rw : ResponseWriter) : ResponseWriter :=
  if rw.wroteHeader then rw else rw.WriteHeader 200

/-! ## Handlers -/

/-- What a handler did: the state of the response writer when it returned and the
URLs of the `client.Get` calls it made, in order. -/
structure Exchange where
  rw : ResponseWriter
  calls : List String := []

/-- The exchange as the server completes it after the handler has returned. -/
def Exchange.finish (ex : Exchange) : Exchange :=
  { ex with rw := ex.rw.finish }

/-- The field `Message` of the health reply. -/
def Peer.healthMessage : Peer → String
  | .service1 => "Service1 is healthy"
  | .service2 => "Service2 is healthy"

/-- Method `healthHandler`, the same text in all four programs up to the peer
name. -/
def healthHandler (w : World) (p : Peer) (rw : ResponseWriter) : Exchange :=
  let response : Response :=
    { Service := p.name
      Message := p.healthMessage
      Timestamp := w.now }
  let rw := rw.setHeader "Content-Type" "application/json"
  { rw := Encode w rw response }

/-- Method `dataHandler` of service1. -/
def dataHandler (w : World) (rw : ResponseWriter) : Exchange :=
  let data : GoValue :=
    .map [("users", .strings ["alice", "bob", "charlie"]),
          ("status", .string "active"),
          ("count", .int 3)]
  let response : Response :=
    { Service := "service1"
      Message := "Data from service1"
      Timestamp := w.now
      Data := data }
  let rw := rw.setHeader "Content-Type" "application/json"
  { rw := Encode w rw response }

/-- The float64 constant 25.5. -/
def float25_5 : Float64 := { bits := 0x4039800000000000 }

/-- Method `metricsHandler` of service2. -/
def metricsHandler (w : World) (rw : ResponseWriter) : Exchange :=
  let metrics : GoValue :=
    .map [("requests_processed", .int 1024),
          ("uptime_seconds", .int 3600),
          ("memory_usage_mb", .int 128),
          ("cpu_usage_percent", .float64 float25_5)]
  let response : Response :=
    { Service := "service2"
      Message := "Metrics from service2"
      Timestamp := w.now
      Data := metrics }
  let rw := rw.setHeader "Content-Type" "application/json"
  { rw := Encode w rw response }

/-- The path of the peer that the relay handler requests: service1 asks service2
for `/health`, service2 asks service1 for `/data`. -/
def Peer.relayPath : Peer → String
  | .service1 => "/health"
  | .service2 => "/data"

/-- The text before the error in the reply to a failed `client.Get`. -/
def Peer.callFailed : Peer → String
  | .service1 => "Failed to call service2: "
  | .service2 => "Failed to call service1: "

/-- The text before the error in the reply to a failed `io.ReadAll`. -/
def Peer.readFailed : Peer → String
  | .service1 => "Failed to read response from service2: "
  | .service2 => "Failed to read response from service1: "

/-- The text before the error in the reply to a failed `json.Unmarshal`. -/
def Peer.parseFailed : Peer → String
  | .service1 => "Failed to parse response from service2: "
  | .service2 => "Failed to parse response from service1: "

/-- The field `Message` of a successful relay. -/
def Peer.relayMessage : Peer → String
  | .service1 => "Successfully called service2 via mTLS"
  | .service2 => "Successfully called service1 via mTLS"

/-- The body shared by `callService2Handler` (service1) and `callService1Handler`
(service2) once the URL to request is fixed; `client` is `s.client`. -/
def relay (w : World) (p : Peer) (client : HTTPClient) (rw : ResponseWriter)
    (url : String) : Exchange :=
  match w.get client url with
  | .error err =>
    { rw := Error rw (p.callFailed ++ err) StatusInternalServerError, calls := [url] }
  | .ok resp =>
    match resp.Body with
    | .error err =>
      { rw := Error rw (p.readFailed ++ err) StatusInternalServerError, calls := [url] }
    | .ok body =>
      match Unmarshal w body {} with
      | .error err =>
        { rw := Error rw (p.parseFailed ++ err) StatusInternalServerError, calls := [url] }
      | .ok peerResponse =>
        let response : Response :=
          { Service := p.name
            Message := p.relayMessage
            Timestamp := w.now
            Data := peerResponse.toValue }
        let rw := rw.setHeader "Content-Type" "application/json"
        { rw := Encode w rw response, calls := [url] }

/-- The URL written into the relay handler of the programs outside `deploy`. -/
def Base.relayURL : Peer → String
  | .service1 => "https://service2:8444/health"
  | .service2 => "https://service1:8443/data"

/-- Method `callService2Handler` of `service1/main.go` and `callService1Handler` of
`service2/main.go`. -/
def Base.callServiceHandler (w : World) (p : Peer) (client : HTTPClient)
    (rw : ResponseWriter) : Exchange :=
  relay w p client rw (Base.relayURL p)

/-- Method `callService2Handler` of `deploy/service1/main.go` and
`callService1Handler` of `deploy/service2/main.go`; `peerURL` is the parameter
`service2URL` or `service1URL`. -/
def Deploy.callServiceHandler (w : World) (p : Peer) (client : HTTPClient)
    (rw : ResponseWriter) (peerURL : String) : Exchange :=
  relay w p client rw (peerURL ++ p.relayPath)

/-- Method `callService2Handler` of `service1/main.go`. -/
def Base.callService2Handler (w : World) (client : HTTPClient) (rw : ResponseWriter) :
    Exchange :=
  Base.callServiceHandler w .service1 client rw

/-- Method `callService1Handler` of `service2/main.go`. -/
def Base.callService1Handler (w : World) (client : HTTPClient) (rw : ResponseWriter) :
    Exchange :=
  Base.callServiceHandler w .service2 client rw

/-- Method `callService2Handler` of `deploy/service1/main.go`. -/
def Deploy.callService2Handler (w : World) (client : HTTPClient) (rw : ResponseWriter)
    (service2URL : String) : Exchange :=
  Deploy.callServiceHandler w .service1 client rw service2URL

/-- Method `callService1Handler` of `deploy/service2/main.go`. -/
def Deploy.callService1Handler (w : World) (client : HTTPClient) (rw : ResponseWriter)
    (service1URL : String) : Exchange :=
  Deploy.callServiceHandler w .service2 client rw service1URL

/-- The relay handler of the program of family `v` for peer `p`. -/
def callServiceHandler (w : World) (v : Variant) (p : Peer) (client : HTTPClient)
    (rw : ResponseWriter) (peerURL : String) : Exchange :=
  match v with
  | .base => Base.callServiceHandler w p client rw
  | .deploy => Deploy.callServiceHandler w p client rw peerURL

/-! ## Routing, the listener and `main` -/

/-- The handler values that `main` registers with the mux. -/
inductive HandlerFunc where
  | health
  | payload
  | relay
  deriving DecidableEq, Repr

/-- The pattern of the second route: `/data` on service1, `/metrics` on service2. -/
def Peer.payloadPattern : Peer → String
  | .service1 => "/data"
  | .service2 => "/metrics"

/-- The pattern of the relay route. -/
def Peer.relayPattern : Peer → String
  | .service1 => "/call-service2"
  | .service2 => "/call-service1"

/-- Go `http.Server` as `main` fills it: the address, the mux as the list of its
registered patterns, and the TLS configuration (nil until it is assigned). -/
structure Server where
  Addr : String
  Handler : List (String × HandlerFunc)
  TLSConfig : Option TLSConfig := none

/-- Where `main` ends up: in a fatal log before the listener exists, or in the call
`server.ListenAndServeTLS` with the server, service and configuration it has built. -/
inductive Outcome where
  | fatal (message : String)
  | listenAndServeTLS (server : Server) (service : Service) (config : Config)

/-- The three `mux.HandleFunc` calls of `main`. -/
def routes (p : Peer) : List (String × HandlerFunc) :=
  [("/health", .health), (p.payloadPattern, .payload), (p.relayPattern, .relay)]

/-- The listen address written in `main` of the programs outside `deploy`. -/
def Base.addr : Peer → String
  | .service1 => ":8443"
  | .service2 => ":8444"

/-- Function `main` of `service1/main.go` and `service2/main.go`. -/
def Base.main (w : World) (p : Peer) : Outcome :=
  let service : Service := {}
  match Base.initMTLSClient w p service with
  | .error err => .fatal ("Failed to initialize mTLS client: " ++ err)
  | .ok service =>
    let mux := routes p
    let server : Server := { Addr := Base.addr p, Handler := mux }
    match Base.setupMTLSServer w p with
    | .error err => .fatal ("Failed to setup mTLS server: " ++ err)
    | .ok tlsConfig =>
      .listenAndServeTLS { server with TLSConfig := some tlsConfig } service (Base.literals p)

/-- Function `main` of `deploy/service1/main.go` and `deploy/service2/main.go`. -/
def Deploy.main (w : World) (p : Peer) : Outcome :=
  let config := getConfig w p
  let service : Service := {}
  match Deploy.initMTLSClient w p service config with
  | .error err => .fatal ("Failed to initialize mTLS client: " ++ err)
  | .ok service =>
    let mux := routes p
    let server : Server := { Addr := ":" ++ config.Port, Handler := mux }
    match Deploy.setupMTLSServer w p config with
    | .error err => .fatal ("Failed to setup mTLS server: " ++ err)
    | .ok tlsConfig =>
      .listenAndServeTLS { server with TLSConfig := some tlsConfig } service config

/-- Function `main` of the program of family `v` for peer `p`. -/
def main (w : World) (v : Variant) (p : Peer) : Outcome :=
  match v with
  | .base => Base.main w p
  | .deploy => Deploy.main w p

/-- The configuration that `main` of family `v` works with. -/
def mainConfig (w : World) (v : Variant) (p : Peer) : Config :=
  v.configured p (getConfig w p)

/-- Whether a client-authentication mode demands a certificate
(`requiresClientCert` of `crypto/tls`). -/
def requiresClientCert : ClientAuthType → Bool
  | .RequireAnyClientCert => true
  | .RequireAndVerifyClientCert => true
  | _ => false

/-- Whether a client-authentication mode verifies a presented certificate
(`ClientAuth >= VerifyClientCertIfGiven` in `crypto/tls`). -/
def verifiesClientCert : ClientAuthType → Bool
  | .VerifyClientCertIfGiven => true
  | .RequireAndVerifyClientCert => true
  | _ => false

/-- The client-certificate step of the server side of the handshake
(`processCertsFromClient` of `crypto/tls`): a required certificate that is missing
fails the handshake, and so does a presented chain that does not verify against
`ClientCAs` when the mode verifies. -/
def processCertsFromClient (w : World) (config : TLSConfig)
    (certificates : List X509Certificate) : Except String Unit :=
  if certificates.length = 0 && requiresClientCert config.ClientAuth then
    .error "tls: client didn\x27t provide a certificate"
  else if verifiesClientCert config.ClientAuth && certificates.length > 0 then
    if w.verifyChain (config.ClientCAs.getD w.systemRoots) certificates then .ok ()
    else .error "tls: failed to verify certificate"
  else .ok ()

/-- One request on a connection. -/
structure Request where
  path : String
  payload : String

/-- An inbound connection: the certificate list the connecting party presents in the
handshake (empty when it presents none) and the requests it sends. -/
structure Conn where
  peerCertificates : List X509Certificate
  requests : List Request

/-- The states of an inbound connection. -/
inductive ConnState where
  | Listening
  | Handshaking
  | Authenticated
  | Routed
  | Responding
  | Rejected
  | Closed
  deriving DecidableEq, Repr

/-- What happened on a connection: the states it went through, the registered
handlers that ran, and the exchanges they produced. -/
structure Served where
  states : List ConnState
  executed : List HandlerFunc
  exchanges : List Exchange

/-- A registered handler value applied to a request.  The relay closure reads
`service.client`; with a nil client the `Get` call panics and nothing is written. -/
def HandlerFunc.serveHTTP (w : World) (v : Variant) (p : Peer) (service : Service)
    (config : Config) (rw : ResponseWriter) : HandlerFunc → Exchange
  | .health => healthHandler w p rw
  | .payload =>
    match p with
    | .service1 => dataHandler w rw
    | .service2 => metricsHandler w rw
  | .relay =>
    match service.client with
    | none => { rw := rw }
    | some client => callServiceHandler w v p client rw config.PeerURL

/-- The mux: a pattern without trailing slash matches the request path exactly. -/
def muxHandler (mux : List (String × HandlerFunc)) (path : String) : Option HandlerFunc :=
  (mux.find? (fun route => route.1 = path)).map (fun route => route.2)

/-- The requests of an authenticated connection, served one after another: each is
routed by the mux, and a path without a registered pattern gets the 404 reply of the
mux itself. -/
def serveRequests (w : World) (v : Variant) (p : Peer) (server : Server) (service : Service)
    (config : Config) : List Request → Served
  | [] => { states := [.Closed], executed := [], exchanges := [] }
  | r :: rs =>
    let rest := serveRequests w v p server service config rs
    match muxHandler server.Handler r.path with
    | none =>
      { states := .Routed :: .Responding :: rest.states
        executed := rest.executed
        exchanges := { rw := Error {} "404 page not found" StatusNotFound } :: rest.exchanges }
    | some h =>
      { states := .Routed :: .Responding :: rest.states
        executed := h :: rest.executed
        exchanges := (h.serveHTTP w v p service config {}).finish :: rest.exchanges }

/-- An inbound connection on the listener that `ListenAndServeTLS` runs: the
handshake with the server TLS configuration comes first, and only a connection whose
handshake succeeded has its requests read and routed. -/
def serveConn (w : World) (v : Variant) (p : Peer) (server : Server) (service : Service)
    (config : Config) (conn : Conn) : Served :=
  match processCertsFromClient w (server.TLSConfig.getD {}) conn.peerCertificates with
  | .error _ =>
    { states := [.Listening, .Handshaking, .Rejected, .Closed], executed := [], exchanges := [] }
  | .ok _ =>
    let served := serveRequests w v p server service config conn.requests
    { served with states := .Listening :: .Handshaking :: .Authenticated :: served.states }

/-! ## A concrete world

A small deployment on which the definitions can be evaluated: the certificate
directory holds a CA bundle with one certificate, every key pair loads, no
environment variable is set, and the other peer answers a `Get` with status 200.
-/

/-- The instant 2024-01-01T00:00:00Z. -/
def sampleInstant : Int := 1704067200000000000

/-- The body of a health reply of service2 at the sample instant. -/
def sampleHealthBody : String :=
  "\x7b\"service\":\"service2\",\"message\":\"Service2 is healthy\",\"timestamp\":\"2024-01-01T00:00:00Z\"\x7d\n"

/-- The value tree of `sampleHealthBody`. -/
def sampleHealthJSON : JSON :=
  .obj [("service", .str "service2"), ("message", .str "Service2 is healthy"),
        ("timestamp", .str "2024-01-01T00:00:00Z")]

/-- The body consisting of the empty JSON object. -/
def emptyObjectBody : String := "\x7b\x7d"

/-- A body whose only member is a timestamp with a zone offset of 24 hours. -/
def zoneHourBody : String :=
  "\x7b\"timestamp\":\"2024-01-01T00:00:00+24:00\"\x7d"

/-- The value tree of `zoneHourBody`. -/
def zoneHourJSON : JSON :=
  .obj [("timestamp", .str "2024-01-01T00:00:00+24:00")]

/-- The time that `time.Parse` reads from the timestamp of `zoneHourBody`. -/
def zoneHourTime : Time :=
  { unixNano := 1703980800000000000, offset := 86400, monotonic := none }

/-- The certificate of the sample CA. -/
def sampleCA : X509Certificate := { raw := "sample-ca" }

/-- The sample deployment; the peer replies with `body` to every `Get`. -/
def sampleWorldWith (body : String) : World where
  getenv := fun _ => ""
  readFile := fun path =>
    if path = "/certs/ca.pem" then .ok "sample-bundle"
    else .error ("open " ++ path ++ ": no such file or directory")
  loadX509KeyPair := fun certFile keyFile =>
    .ok { chain := [{ raw := certFile }], privateKey := keyFile }
  pemBlocks := fun pemCerts =>
    if pemCerts = "sample-bundle" then
      [{ type := "CERTIFICATE", headers := [], bytes := "sample-ca" }]
    else []
  parseCertificate := fun der =>
    if der = "sample-ca" then .ok sampleCA else .error "x509: malformed certificate"
  verifyChain := fun roots certificates =>
    match certificates with
    | [] => false
    | leaf :: _ => decide (sampleCA ∈ roots.certs) && leaf.raw == "issued-by-sample-ca"
  get := fun _ _ => .ok { StatusCode := 200, Body := .ok body }
  now := { unixNano := sampleInstant, offset := 0, monotonic := some 1 }
  nowInRange := by with_unfolding_all rfl
  scan := fun data =>
    if data = emptyObjectBody then .ok (.obj [])
    else if data = sampleHealthBody then .ok sampleHealthJSON
    else if data = zoneHourBody then .ok zoneHourJSON
    else .error "invalid character"
  formatFloat := fun f => if f = float25_5 then "25.5" else "3"
  parseFloat := fun lit =>
    if lit = "25.5" then .ok float25_5
    else if lit = "3" then .ok { bits := 0x4008000000000000 }
    else .error "strconv.ParseFloat: invalid syntax"
  parseFloatFinite := by
    intro lit f h
    by_cases h1 : lit = "25.5" <;> by_cases h2 : lit = "3" <;> simp [h1, h2] at h <;>
      subst h <;> rfl
  foldName := fun key => String.mk (key.data.map Char.toLower)
  systemRoots := { certs := [] }

/-- The sample deployment with a peer that answers with a health reply. -/
def sampleWorld : World := sampleWorldWith sampleHealthBody

/-- The sample deployment with a peer that answers with the body of two braces. -/
def emptyObjectWorld : World := sampleWorldWith emptyObjectBody

/-- The sample deployment with a peer that answers with `zoneHourBody`. -/
def zoneHourWorld : World := sampleWorldWith zoneHourBody

/-- The sample deployment with the CA bundle file missing and no key pair but the
client key pairs in place. -/
def clientOnlyWorld : World :=
  { sampleWorld with
    readFile := fun path => .error ("open " ++ path ++ ": no such file or directory")
    loadX509KeyPair := fun certFile keyFile =>
      if certFile = "/certs/service1-client-cert.pem"
          ∨ certFile = "/certs/service2-client-cert.pem" then
        .ok { chain := [{ raw := certFile }], privateKey := keyFile }
      else .error ("open " ++ certFile ++ ": no such file or directory") }

/-- The sample deployment with the CA bundle file missing. -/
def noBundleWorld : World :=
  { sampleWorld with readFile := fun path => .error ("open " ++ path ++ ": no such file or directory") }

/-- The server configuration of service1 in the sample world. -/
def sampleServerTLS : TLSConfig :=
  { Certificates := [{ chain := [{ raw := "/certs/service1-cert.pem" }],
                       privateKey := "/certs/service1-key.pem" }]
    ClientAuth := .RequireAndVerifyClientCert
    ClientCAs := some { certs := [sampleCA] }
    ServerName := "service1" }

/-- The client of service1 in the sample world. -/
def sampleClient : HTTPClient :=
  { TLSClientConfig :=
      { Certificates := [{ chain := [{ raw := "/certs/service1-client-cert.pem" }],
                           privateKey := "/certs/service1-client-key.pem" }]
        RootCAs := some { certs := [sampleCA] }
        InsecureSkipVerify := false }
    Timeout := 30000000000 }

/-- The server that `main` of service1 outside `deploy` builds in the sample world. -/
def sampleServer : Server :=
  { Addr := ":8443", Handler := routes .service1, TLSConfig := some sampleServerTLS }

/-- The client of service1 outside `deploy` in the sample world. -/
def sampleBaseClient : HTTPClient :=
  { TLSClientConfig :=
      { Certificates := [{ chain := [{ raw := "/certs/service1-client-cert.pem" }],
                           privateKey := "/certs/service1-client-key.pem" }]
        RootCAs := some { certs := [sampleCA] }
        ServerName := "service2" }
    Timeout := 30000000000 }

/-- A connection that presents a self-signed certificate and asks for `/health`. -/
def selfSignedConn : Conn :=
  { peerCertificates := [{ raw := "self-signed" }]
    requests := [{ path := "/health", payload := "" }] }

/-- The URL that the relay handler of family `v` requests. -/
def relayTarget (v : Variant) (p : Peer) (peerURL : String) : String :=
  match v with
  | .base => Base.relayURL p
  | .deploy => peerURL ++ p.relayPath

/-- The keys of the members of a JSON object, in order. -/
def JSON.keys : JSON → List String
  | .obj kvs => kvs.map (fun kv => kv.1)
  | _ => []

/-- The value of the first member of a JSON object with the given key. -/
def JSON.member (x : JSON) (key : String) : Option JSON :=
  match x with
  | .obj kvs => (kvs.find? (fun kv => kv.1 = key)).map (fun kv => kv.2)
  | _ => none

/-- Whether a part of a body is the JSON line of an encoded value. -/
def BodyPart.isJSON : BodyPart → Bool
  | .json _ => true
  | .text _ => false

/-- The sample deployment with a peer that cannot be reached. -/
def unreachableWorld : World :=
  { sampleWorld with get := fun _ _ => .error "dial tcp: connection refused" }

/-- What `json.Unmarshal` makes of `sampleHealthBody` in the sample world. -/
def sampleHealthResponse : Response :=
  { Service := "service2"
    Message := "Service2 is healthy"
    Timestamp := { unixNano := sampleInstant, offset := 0, monotonic := none } }

/-- Whether a JSON value can be stored into a field of `Response` without error: a
string field takes null or a string, the time field takes null or a string that
parses as a time, and the interface field takes whatever decodes. -/
def fits (w : World) (f : Field) (x : JSON) : Bool :=
  match f, x with
  | .Service, .null => true
  | .Service, .str _ => true
  | .Service, _ => false
  | .Message, .null => true
  | .Message, .str _ => true
  | .Message, _ => false
  | .Timestamp, .null => true
  | .Timestamp, .str s =>
    match w.parseTime s with
    | .ok _ => true
    | .error _ => false
  | .Timestamp, _ => false
  | .Data, x =>
    match decodeAny w x with
    | .ok _ => true
    | .error _ => false

/-- Whether no member of an object selects the field. -/
def absent (w : World) (f : Field) (kvs : List (String × JSON)) : Prop :=
  ∀ kv ∈ kvs, fieldFor w kv.1 ≠ some f

/-- Whether two responses agree on a field. -/
def Response.sameAt (f : Field) (a b : Response) : Prop :=
  match f with
  | .Service => a.Service = b.Service
  | .Message => a.Message = b.Message
  | .Timestamp => a.Timestamp = b.Timestamp
  | .Data => a.Data = b.Data

/-- The reply of the relay handler of peer `p` around a decoded peer response. -/
def relayReply (w : World) (p : Peer) (inner : Response) : Response :=
  { Service := p.name
    Message := p.relayMessage
    Timestamp := w.now
    Data := inner.toValue }

/-- The response that `dataHandler` encodes. -/
def dataReply (w : World) : Response :=
  { Service := "service1"
    Message := "Data from service1"
    Timestamp := w.now
    Data := .map [("users", .strings ["alice", "bob", "charlie"]),
                  ("status", .string "active"),
                  ("count", .int 3)] }

/-- Go map lookup `m[key]` on a value that holds a map. -/
def GoValue.entry (v : GoValue) (key : String) : Option GoValue :=
  match v with
  | .map kvs => (kvs.find? (fun kv => kv.1 = key)).map (fun kv => kv.2)
  | _ => none

/-- What decoding makes of the encoded `dataReply` in the sample world. -/
def dataReplyDecoded : Response :=
  { Service := "service1"
    Message := "Data from service1"
    Timestamp := { unixNano := sampleInstant, offset := 0, monotonic := none }
    Data := .map [("count", .float64 { bits := 0x4008000000000000 }),
                  ("status", .string "active"),
                  ("users", .slice [.string "alice", .string "bob", .string "charlie"])] }

/-- What decoding makes of the encoded relay reply of service1 around the health
reply of service2 in the sample world. -/
def relayReplyDecoded : Response :=
  { Service := "service1"
    Message := "Successfully called service2 via mTLS"
    Timestamp := { unixNano := sampleInstant, offset := 0, monotonic := none }
    Data := .map [("service", .string "service2"),
                  ("message", .string "Service2 is healthy"),
                  ("timestamp", .string "2024-01-01T00:00:00Z")] }

/-- The sample deployment with a peer that answers with status 500 and
`zoneHourBody`. -/
def errorStatusZoneHourWorld : World :=
  { sampleWorld with
    get := fun _ _ => .ok { StatusCode := 500, Body := .ok zoneHourBody } }

/-- The sample deployment with a peer that answers with status 500 and the body of
a health reply. -/
def errorStatusWorld : World :=
  { sampleWorld with
    get := fun _ _ => .ok { StatusCode := 500, Body := .ok sampleHealthBody } }

/-- The encoding of the data of `dataReply`: the members of the map sorted by key. -/
def dataReplyJSON : JSON :=
  .obj [("count", .num "3"), ("status", .str "active"),
        ("users", .arr [.str "alice", .str "bob", .str "charlie"])]

/-- The encoding of `dataReply` in the sample world. -/
def dataEnvelopeJSON : JSON :=
  .obj [("service", .str "service1"), ("message", .str "Data from service1"),
        ("timestamp", .str "2024-01-01T00:00:00Z"), ("data", dataReplyJSON)]

/-- The encoding of the relay reply of service1 around the health reply of service2
in the sample world. -/
def relayEnvelopeJSON : JSON :=
  .obj [("service", .str "service1"),
        ("message", .str "Successfully called service2 via mTLS"),
        ("timestamp", .str "2024-01-01T00:00:00Z"), ("data", sampleHealthJSON)]

/-! ## Theorems -/

/-! ### Trust store loading -/

/-- The accumulator of the loop of `AppendCertsFromPEM`: the boolean ends up true
exactly when it was true before or some visited block is added. -/
theorem appendLoop_ok (w : World) (blocks : List PemBlock) (acc : CertPool × Bool) :
    (blocks.foldl
      (fun acc block =>
        match parseableCertificate w block with
        | none => acc
        | some cert => ({ certs := acc.1.certs ++ [cert] }, true))
      acc).2 = true ↔
    acc.2 = true ∨ ∃ b ∈ blocks, (parseableCertificate w b).isSome = true := by
  induction blocks generalizing acc with
  | nil => simp
  | cons b bs ih =>
    rw [List.foldl_cons, ih]
    cases hb : parseableCertificate w b <;> simp [hb]

/-- The boolean of `AppendCertsFromPEM` on a fresh pool: true exactly when the
bundle holds a block that is added. -/
theorem AppendCertsFromPEM_ok (w : World) (pemCerts : String) :
    (NewCertPool.AppendCertsFromPEM w pemCerts).2 = true ↔
    ∃ b ∈ bundleBlocks w pemCerts, (parseableCertificate w b).isSome = true := by
  unfold CertPool.AppendCertsFromPEM
  rw [appendLoop_ok]
  simp

/-- The CA path of the programs outside `deploy` is the literal of their code. -/
theorem Base.literals_CAPath (p : Peer) : (Base.literals p).CAPath = "/certs/ca.pem" := by
  cases p <;> rfl

/-- What a successful `setupMTLSServer` went through, for both families. -/
theorem setupMTLSServer_ok_inv (w : World) (v : Variant) (p : Peer) (config : Config)
    (tls : TLSConfig) (h : setupMTLSServer w v p config = .ok tls) :
    ∃ cert caCert,
      w.loadX509KeyPair (v.configured p config).CertPath (v.configured p config).KeyPath
        = .ok cert ∧
      w.readFile (v.configured p config).CAPath = .ok caCert ∧
      (NewCertPool.AppendCertsFromPEM w caCert).2 = true ∧
      tls = { Certificates := [cert]
              ClientAuth := .RequireAndVerifyClientCert
              ClientCAs := some (NewCertPool.AppendCertsFromPEM w caCert).1
              ServerName := p.name } := by
  cases v with
  | base =>
    simp only [setupMTLSServer, Base.setupMTLSServer, Variant.configured] at h ⊢
    rw [Base.literals_CAPath]
    cases hl : w.loadX509KeyPair (Base.literals p).CertPath (Base.literals p).KeyPath with
    | error e => simp [hl] at h
    | ok cert =>
      cases hr : w.readFile "/certs/ca.pem" with
      | error e => simp [hl, hr] at h
      | ok caCert =>
        cases hb : (NewCertPool.AppendCertsFromPEM w caCert).2 with
        | false => simp [hl, hr, hb] at h
        | true =>
          simp [hl, hr, hb] at h
          exact ⟨cert, caCert, rfl, rfl, hb, h.symm⟩
  | deploy =>
    simp only [setupMTLSServer, Deploy.setupMTLSServer, Variant.configured] at h ⊢
    cases hl : w.loadX509KeyPair config.CertPath config.KeyPath with
    | error e => simp [hl] at h
    | ok cert =>
      cases hr : w.readFile config.CAPath with
      | error e => simp [hl, hr] at h
      | ok caCert =>
        cases hb : (NewCertPool.AppendCertsFromPEM w caCert).2 with
        | false => simp [hl, hr, hb] at h
        | true =>
          simp [hl, hr, hb] at h
          exact ⟨cert, caCert, rfl, rfl, hb, h.symm⟩

/-- What a successful `initMTLSClient` went through, for both families: the client
it stores has the loaded key pair, the pool of the CA bundle as roots, certificate
verification switched on, and a timeout of thirty seconds. -/
theorem initMTLSClient_ok_inv (w : World) (v : Variant) (p : Peer) (s s' : Service)
    (config : Config) (h : initMTLSClient w v p s config = .ok s') :
    ∃ cert caCert client,
      w.loadX509KeyPair (v.configured p config).ClientCertPath
        (v.configured p config).ClientKeyPath = .ok cert ∧
      w.readFile (v.configured p config).CAPath = .ok caCert ∧
      (NewCertPool.AppendCertsFromPEM w caCert).2 = true ∧
      s'.client = some client ∧
      client.TLSClientConfig.Certificates = [cert] ∧
      client.TLSClientConfig.RootCAs = some (NewCertPool.AppendCertsFromPEM w caCert).1 ∧
      client.TLSClientConfig.InsecureSkipVerify = false ∧
      client.Timeout = 30 * Second := by
  cases v with
  | base =>
    simp only [initMTLSClient, Base.initMTLSClient, Variant.configured] at h ⊢
    rw [Base.literals_CAPath]
    cases hl : w.loadX509KeyPair (Base.literals p).ClientCertPath
        (Base.literals p).ClientKeyPath with
    | error e => simp [hl] at h
    | ok cert =>
      cases hr : w.readFile "/certs/ca.pem" with
      | error e => simp [hl, hr] at h
      | ok caCert =>
        cases hb : (NewCertPool.AppendCertsFromPEM w caCert).2 with
        | false => simp [hl, hr, hb] at h
        | true =>
          simp [hl, hr, hb] at h
          subst h
          exact ⟨cert, caCert, _, rfl, rfl, hb, rfl, rfl, rfl, rfl, rfl⟩
  | deploy =>
    simp only [initMTLSClient, Deploy.initMTLSClient, Variant.configured] at h ⊢
    cases hl : w.loadX509KeyPair config.ClientCertPath config.ClientKeyPath with
    | error e => simp [hl] at h
    | ok cert =>
      cases hr : w.readFile config.CAPath with
      | error e => simp [hl, hr] at h
      | ok caCert =>
        cases hb : (NewCertPool.AppendCertsFromPEM w caCert).2 with
        | false => simp [hl, hr, hb] at h
        | true =>
          simp [hl, hr, hb] at h
          subst h
          exact ⟨cert, caCert, _, rfl, rfl, hb, rfl, rfl, rfl, rfl, rfl⟩

/-- C1: in all four programs, a TLS configuration returned by `setupMTLSServer` has
`ClientAuth` equal to `RequireAndVerifyClientCert`, `ClientCAs` equal to the pool
built from the CA bundle read at the configured CA path, and `Certificates` equal to
the one-element list of the key pair loaded from the configured certificate and key
paths. -/
theorem setupMTLSServer_policy (w : World) (v : Variant) (p : Peer) (config : Config)
    (tls : TLSConfig) (h : setupMTLSServer w v p config = .ok tls) :
    tls.ClientAuth = .RequireAndVerifyClientCert ∧
    (∃ caCert, w.readFile (v.configured p config).CAPath = .ok caCert ∧
      tls.ClientCAs = some (NewCertPool.AppendCertsFromPEM w caCert).1) ∧
    (∃ cert, w.loadX509KeyPair (v.configured p config).CertPath
        (v.configured p config).KeyPath = .ok cert ∧
      tls.Certificates = [cert]) := by
  obtain ⟨cert, caCert, hl, hr, _, rfl⟩ := setupMTLSServer_ok_inv w v p config tls h
  exact ⟨rfl, ⟨caCert, hr, rfl⟩, ⟨cert, hl, rfl⟩⟩

/-- Witness for C1: service1 outside `deploy` in the sample world. -/
theorem setupMTLSServer_policy_witness :
    setupMTLSServer sampleWorld .base .service1 (getConfig sampleWorld .service1)
      = .ok sampleServerTLS ∧
    (sampleServerTLS.ClientAuth = .RequireAndVerifyClientCert ∧
     (∃ caCert, sampleWorld.readFile
          (Variant.base.configured .service1 (getConfig sampleWorld .service1)).CAPath
          = .ok caCert ∧
        sampleServerTLS.ClientCAs = some (NewCertPool.AppendCertsFromPEM sampleWorld caCert).1) ∧
     (∃ cert, sampleWorld.loadX509KeyPair
          (Variant.base.configured .service1 (getConfig sampleWorld .service1)).CertPath
          (Variant.base.configured .service1 (getConfig sampleWorld .service1)).KeyPath
          = .ok cert ∧
        sampleServerTLS.Certificates = [cert])) :=
  ⟨rfl, setupMTLSServer_policy sampleWorld .base .service1 _ sampleServerTLS rfl⟩

/-- C3: in all four programs, after `initMTLSClient` has returned without error the
service holds a client whose TLS configuration has `Certificates` equal to the
one-element list of the key pair loaded from the configured client certificate and
key paths, `RootCAs` equal to the pool built from the CA bundle read at the
configured CA path, and `InsecureSkipVerify` false, and whose timeout is thirty
seconds (in nanoseconds). -/
theorem initMTLSClient_config (w : World) (v : Variant) (p : Peer) (s s' : Service)
    (config : Config) (h : initMTLSClient w v p s config = .ok s') :
    ∃ client, s'.client = some client ∧
      (∃ cert, w.loadX509KeyPair (v.configured p config).ClientCertPath
          (v.configured p config).ClientKeyPath = .ok cert ∧
        client.TLSClientConfig.Certificates = [cert]) ∧
      (∃ caCert, w.readFile (v.configured p config).CAPath = .ok caCert ∧
        client.TLSClientConfig.RootCAs
          = some (NewCertPool.AppendCertsFromPEM w caCert).1) ∧
      client.TLSClientConfig.InsecureSkipVerify = false ∧
      client.Timeout = 30 * 1000000000 := by
  obtain ⟨cert, caCert, client, hl, hr, _, hc, h1, h2, h3, h4⟩ :=
    initMTLSClient_ok_inv w v p s s' config h
  exact ⟨client, hc, ⟨cert, hl, h1⟩, ⟨caCert, hr, h2⟩, h3, h4⟩

/-- Witness for C3: service1 of `deploy` in the sample world. -/
theorem initMTLSClient_config_witness :
    initMTLSClient sampleWorld .deploy .service1 {} (getConfig sampleWorld .service1)
      = .ok { client := some sampleClient } ∧
    ∃ client, (some sampleClient : Option HTTPClient) = some client ∧
      (∃ cert, sampleWorld.loadX509KeyPair "/certs/service1-client-cert.pem"
          "/certs/service1-client-key.pem" = .ok cert ∧
        client.TLSClientConfig.Certificates = [cert]) ∧
      (∃ caCert, sampleWorld.readFile "/certs/ca.pem" = .ok caCert ∧
        client.TLSClientConfig.RootCAs
          = some (NewCertPool.AppendCertsFromPEM sampleWorld caCert).1) ∧
      client.TLSClientConfig.InsecureSkipVerify = false ∧
      client.Timeout = 30 * 1000000000 :=
  ⟨rfl, initMTLSClient_config sampleWorld .deploy .service1 {}
      { client := some sampleClient } (getConfig sampleWorld .service1) rfl⟩

/-- C4: in all four programs, once the key pair of its own role has loaded, the trust
loading step of `setupMTLSServer` (server pair) and of `initMTLSClient` (client pair)
does this: an unreadable CA file gives the error `failed to read CA certificate: `
followed by the read error; a file that was read but holds no block that parses as a
certificate (an empty file among them) gives the error
`failed to parse CA certificate`; a file with at least one such block lets the
function return without error.  An error result carries no configuration. -/
theorem trust_loading (w : World) (v : Variant) (p : Peer) (s : Service) (config : Config) :
    (∀ serverCert, w.loadX509KeyPair (v.configured p config).CertPath
        (v.configured p config).KeyPath = .ok serverCert →
      (∀ err, w.readFile (v.configured p config).CAPath = .error err →
        setupMTLSServer w v p config = .error ("failed to read CA certificate: " ++ err) ∧
        "failed to read CA certificate".data
          <+: ("failed to read CA certificate: " ++ err).data) ∧
      (∀ caCert, w.readFile (v.configured p config).CAPath = .ok caCert →
        (caCert.length = 0 ∨ ∀ b ∈ bundleBlocks w caCert, parseableCertificate w b = none) →
        setupMTLSServer w v p config = .error "failed to parse CA certificate") ∧
      (∀ caCert, w.readFile (v.configured p config).CAPath = .ok caCert →
        (∃ b ∈ bundleBlocks w caCert, (parseableCertificate w b).isSome = true) →
        ∃ tls, setupMTLSServer w v p config = .ok tls)) ∧
    (∀ clientCert, w.loadX509KeyPair (v.configured p config).ClientCertPath
        (v.configured p config).ClientKeyPath = .ok clientCert →
      (∀ err, w.readFile (v.configured p config).CAPath = .error err →
        initMTLSClient w v p s config = .error ("failed to read CA certificate: " ++ err) ∧
        "failed to read CA certificate".data
          <+: ("failed to read CA certificate: " ++ err).data) ∧
      (∀ caCert, w.readFile (v.configured p config).CAPath = .ok caCert →
        (caCert.length = 0 ∨ ∀ b ∈ bundleBlocks w caCert, parseableCertificate w b = none) →
        initMTLSClient w v p s config = .error "failed to parse CA certificate") ∧
      (∀ caCert, w.readFile (v.configured p config).CAPath = .ok caCert →
        (∃ b ∈ bundleBlocks w caCert, (parseableCertificate w b).isSome = true) →
        ∃ s', initMTLSClient w v p s config = .ok s')) := by
  have hnone : ∀ caCert,
      (caCert.length = 0 ∨ ∀ b ∈ bundleBlocks w caCert, parseableCertificate w b = none) →
      (NewCertPool.AppendCertsFromPEM w caCert).2 = false := by
    intro caCert hnone
    rw [Bool.eq_false_iff, Ne, AppendCertsFromPEM_ok]
    rintro ⟨b, hmem, hsome⟩
    rcases hnone with h0 | hall
    · simp [bundleBlocks, h0] at hmem
    · simp [hall b hmem] at hsome
  constructor
  · intro serverCert hs
    refine ⟨?_, ?_, ?_⟩
    · intro err hr
      refine ⟨?_, by simp⟩
      cases v
      · simp only [Variant.configured] at hs hr
        rw [Base.literals_CAPath] at hr
        simp [setupMTLSServer, Base.setupMTLSServer, hs, hr]
      · simp only [Variant.configured] at hs hr
        simp [setupMTLSServer, Deploy.setupMTLSServer, hs, hr]
    · intro caCert hr hbad
      have hb := hnone caCert hbad
      cases v
      · simp only [Variant.configured] at hs hr
        rw [Base.literals_CAPath] at hr
        simp [setupMTLSServer, Base.setupMTLSServer, hs, hr, hb]
      · simp only [Variant.configured] at hs hr
        simp [setupMTLSServer, Deploy.setupMTLSServer, hs, hr, hb]
    · intro caCert hr hsome
      have hb : (NewCertPool.AppendCertsFromPEM w caCert).2 = true :=
        (AppendCertsFromPEM_ok w caCert).2 hsome
      cases v
      · simp only [Variant.configured] at hs hr
        rw [Base.literals_CAPath] at hr
        simp [setupMTLSServer, Base.setupMTLSServer, hs, hr, hb]
      · simp only [Variant.configured] at hs hr
        simp [setupMTLSServer, Deploy.setupMTLSServer, hs, hr, hb]
  · intro clientCert hc
    refine ⟨?_, ?_, ?_⟩
    · intro err hr
      refine ⟨?_, by simp⟩
      cases v
      · simp only [Variant.configured] at hc hr
        rw [Base.literals_CAPath] at hr
        simp [initMTLSClient, Base.initMTLSClient, hc, hr]
      · simp only [Variant.configured] at hc hr
        simp [initMTLSClient, Deploy.initMTLSClient, hc, hr]
    · intro caCert hr hbad
      have hb := hnone caCert hbad
      cases v
      · simp only [Variant.configured] at hc hr
        rw [Base.literals_CAPath] at hr
        simp [initMTLSClient, Base.initMTLSClient, hc, hr, hb]
      · simp only [Variant.configured] at hc hr
        simp [initMTLSClient, Deploy.initMTLSClient, hc, hr, hb]
    · intro caCert hr hsome
      have hb : (NewCertPool.AppendCertsFromPEM w caCert).2 = true :=
        (AppendCertsFromPEM_ok w caCert).2 hsome
      cases v
      · simp only [Variant.configured] at hc hr
        rw [Base.literals_CAPath] at hr
        simp [initMTLSClient, Base.initMTLSClient, hc, hr, hb]
      · simp only [Variant.configured] at hc hr
        simp [initMTLSClient, Deploy.initMTLSClient, hc, hr, hb]

/-- Witness for C4: in the world where only the client key pair can be loaded and the
CA file is missing, `initMTLSClient` of service2 returns the read error; in the
sample world, whose bundle holds one certificate block, `setupMTLSServer` succeeds. -/
theorem trust_loading_witness :
    clientOnlyWorld.loadX509KeyPair "/certs/service2-client-cert.pem"
        "/certs/service2-client-key.pem"
      = .ok { chain := [{ raw := "/certs/service2-client-cert.pem" }],
              privateKey := "/certs/service2-client-key.pem" } ∧
    clientOnlyWorld.loadX509KeyPair "/certs/service2-cert.pem" "/certs/service2-key.pem"
      = .error "open /certs/service2-cert.pem: no such file or directory" ∧
    initMTLSClient clientOnlyWorld .deploy .service2 {} (getConfig clientOnlyWorld .service2)
      = .error ("failed to read CA certificate: "
          ++ "open /certs/ca.pem: no such file or directory") ∧
    sampleWorld.loadX509KeyPair "/certs/service2-cert.pem" "/certs/service2-key.pem"
      = .ok { chain := [{ raw := "/certs/service2-cert.pem" }],
              privateKey := "/certs/service2-key.pem" } ∧
    (∃ tls, setupMTLSServer sampleWorld .deploy .service2
        (getConfig sampleWorld .service2) = .ok tls) :=
  ⟨rfl, rfl,
    (((trust_loading clientOnlyWorld .deploy .service2 {}
      (getConfig clientOnlyWorld .service2)).2 _ rfl).1
      "open /certs/ca.pem: no such file or directory" rfl).1,
    rfl,
    ((trust_loading sampleWorld .deploy .service2 {} (getConfig sampleWorld .service2)).1
      _ rfl).2.2 "sample-bundle" rfl
      ⟨{ type := "CERTIFICATE", headers := [], bytes := "sample-ca" },
        List.Mem.head _, rfl⟩⟩

/-! ### Startup -/

/-- The pool after a successful `AppendCertsFromPEM` on a fresh pool is not empty. -/
theorem appendLoop_nonempty (w : World) (blocks : List PemBlock) (acc : CertPool × Bool)
    (hacc : acc.2 = true → acc.1.certs ≠ []) :
    (blocks.foldl
      (fun acc block =>
        match parseableCertificate w block with
        | none => acc
        | some cert => ({ certs := acc.1.certs ++ [cert] }, true))
      acc).2 = true →
    (blocks.foldl
      (fun acc block =>
        match parseableCertificate w block with
        | none => acc
        | some cert => ({ certs := acc.1.certs ++ [cert] }, true))
      acc).1.certs ≠ [] := by
  induction blocks generalizing acc with
  | nil => simpa using hacc
  | cons b bs ih =>
    rw [List.foldl_cons]
    apply ih
    cases hb : parseableCertificate w b
    · simpa using hacc
    · simp

/-- A trust pool that `AppendCertsFromPEM` reports as loaded holds a certificate. -/
theorem AppendCertsFromPEM_nonempty (w : World) (pemCerts : String)
    (h : (NewCertPool.AppendCertsFromPEM w pemCerts).2 = true) :
    (NewCertPool.AppendCertsFromPEM w pemCerts).1.certs ≠ [] := by
  unfold CertPool.AppendCertsFromPEM at h ⊢
  exact appendLoop_nonempty w _ _ (by simp) h

/-- The outcome of `main` in terms of its two setup calls. -/
theorem main_eq (w : World) (v : Variant) (p : Peer) :
    main w v p =
      match initMTLSClient w v p {} (mainConfig w v p) with
      | .error err => .fatal ("Failed to initialize mTLS client: " ++ err)
      | .ok service =>
        match setupMTLSServer w v p (mainConfig w v p) with
        | .error err => .fatal ("Failed to setup mTLS server: " ++ err)
        | .ok tlsConfig =>
          .listenAndServeTLS
            { Addr := ":" ++ (mainConfig w v p).Port, Handler := routes p,
              TLSConfig := some tlsConfig }
            service (mainConfig w v p) := by
  cases v with
  | base =>
    simp only [main, Base.main, initMTLSClient, setupMTLSServer, mainConfig,
      Variant.configured]
    have haddr : Base.addr p = ":" ++ (Base.literals p).Port := by cases p <;> rfl
    rw [haddr]
  | deploy =>
    simp only [main, Deploy.main, initMTLSClient, setupMTLSServer, mainConfig,
      Variant.configured]

/-- What `main` has done when it reaches `ListenAndServeTLS`. -/
theorem main_listen_inv (w : World) (v : Variant) (p : Peer) (server : Server)
    (service : Service) (config : Config)
    (h : main w v p = .listenAndServeTLS server service config) :
    ∃ tls, initMTLSClient w v p {} (mainConfig w v p) = .ok service ∧
      setupMTLSServer w v p (mainConfig w v p) = .ok tls ∧
      server.TLSConfig = some tls ∧ server.Handler = routes p ∧
      server.Addr = ":" ++ (mainConfig w v p).Port ∧
      config = mainConfig w v p := by
  rw [main_eq] at h
  cases hi : initMTLSClient w v p {} (mainConfig w v p) with
  | error e => simp [hi] at h
  | ok service' =>
    cases hsu : setupMTLSServer w v p (mainConfig w v p) with
    | error e => simp [hi, hsu] at h
    | ok tls =>
      simp [hi, hsu] at h
      obtain ⟨h1, h2, h3⟩ := h
      subst h1 h2 h3
      exact ⟨tls, rfl, rfl, rfl, rfl, rfl, rfl⟩

/-- C10: in all four programs `main` reaches `ListenAndServeTLS` only after both
`initMTLSClient` and `setupMTLSServer` have returned without error, and then the
server carries the configuration of `setupMTLSServer`, with a non-empty trust pool,
one server key pair and mandatory verified client certificates; when the client key
pair, the server key pair, the read of the CA file or the parse of the CA bundle
fails, `main` ends in a fatal log and no listener is started. -/
theorem main_no_degraded_start (w : World) (v : Variant) (p : Peer) :
    (∀ server service config, main w v p = .listenAndServeTLS server service config →
      initMTLSClient w v p {} (mainConfig w v p) = .ok service ∧
      ∃ tls cert pool, setupMTLSServer w v p (mainConfig w v p) = .ok tls ∧
        server.TLSConfig = some tls ∧ tls.ClientCAs = some pool ∧ pool.certs ≠ [] ∧
        tls.Certificates = [cert] ∧ tls.ClientAuth = .RequireAndVerifyClientCert) ∧
    (((∃ err, w.loadX509KeyPair (mainConfig w v p).ClientCertPath
          (mainConfig w v p).ClientKeyPath = .error err) ∨
      (∃ err, w.loadX509KeyPair (mainConfig w v p).CertPath
          (mainConfig w v p).KeyPath = .error err) ∨
      (∃ err, w.readFile (mainConfig w v p).CAPath = .error err) ∨
      (∃ caCert, w.readFile (mainConfig w v p).CAPath = .ok caCert ∧
          (NewCertPool.AppendCertsFromPEM w caCert).2 = false)) →
      ∃ message, main w v p = .fatal message) := by
  have hcfg : v.configured p (mainConfig w v p) = mainConfig w v p := by
    cases v <;> rfl
  constructor
  · intro server service config h
    obtain ⟨tls, hi, hsu, htls, -, -, -⟩ := main_listen_inv w v p server service config h
    obtain ⟨cert, caCert, -, -, hb, rfl⟩ := setupMTLSServer_ok_inv w v p _ tls hsu
    exact ⟨hi, _, cert, _, hsu, htls, rfl, AppendCertsFromPEM_nonempty w caCert hb, rfl, rfl⟩
  · intro hfail
    cases hm : main w v p with
    | fatal message => exact ⟨message, rfl⟩
    | listenAndServeTLS server service config =>
      exfalso
      obtain ⟨tls, hi, hsu, -⟩ := main_listen_inv w v p server service config hm
      obtain ⟨cert, caCert, hl, hr, hb, -⟩ := setupMTLSServer_ok_inv w v p _ tls hsu
      obtain ⟨cert', caCert', client, hl', -⟩ := initMTLSClient_ok_inv w v p _ _ _ hi
      rw [hcfg] at hl hr hl'
      rcases hfail with ⟨e, he⟩ | ⟨e, he⟩ | ⟨e, he⟩ | ⟨c, hc, hf⟩
      · rw [he] at hl'; cases hl'
      · rw [he] at hl; cases hl
      · rw [he] at hr; cases hr
      · rw [hc] at hr
        cases hr
        rw [hf] at hb
        cases hb

/-- Witness for C10: in the sample world `main` of service1 reaches the listener with
the sample server, and with the CA bundle missing it ends in a fatal log. -/
theorem main_no_degraded_start_witness :
    main sampleWorld .base .service1
      = .listenAndServeTLS sampleServer { client := some sampleBaseClient }
          (Base.literals .service1) ∧
    (∃ message, main noBundleWorld .base .service1 = .fatal message) :=
  ⟨rfl, (main_no_degraded_start noBundleWorld .base .service1).2
    (Or.inr (Or.inr (Or.inl ⟨_, rfl⟩)))⟩

/-! ### The listener gate -/

/-- Under the policy `RequireAndVerifyClientCert` with a pool of client CAs, the
client-certificate step succeeds exactly for a presented chain that verifies. -/
theorem processCertsFromClient_ok_iff (w : World) (config : TLSConfig) (pool : CertPool)
    (certificates : List X509Certificate)
    (hauth : config.ClientAuth = .RequireAndVerifyClientCert)
    (hpool : config.ClientCAs = some pool) :
    processCertsFromClient w config certificates = .ok () ↔
      certificates ≠ [] ∧ w.verifyChain pool certificates = true := by
  unfold processCertsFromClient
  rw [hauth, hpool]
  cases certificates with
  | nil => simp [requiresClientCert]
  | cons c cs =>
    cases hv : w.verifyChain pool (c :: cs) <;>
      simp [requiresClientCert, verifiesClientCert, hv]

/-- Serving requests never enters the state `Authenticated`; that state is entered
by the handshake only. -/
theorem serveRequests_states (w : World) (v : Variant) (p : Peer) (server : Server)
    (service : Service) (config : Config) (rs : List Request) :
    ConnState.Authenticated ∉ (serveRequests w v p server service config rs).states := by
  induction rs with
  | nil => simp [serveRequests]
  | cons r rs ih =>
    unfold serveRequests
    cases muxHandler server.Handler r.path <;> simpa using ih

/-- C2: on the listener that `main` starts (any of the four programs), a connection
whose presented certificates do not verify against the pool of the configured CA
bundle, or that presents no certificate, is rejected in the handshake: no registered
handler runs and nothing is exchanged, whatever its requests are; and a connection
reaches the state `Authenticated` only when it presented a chain that verifies
against that pool. -/
theorem unauthenticated_connection_rejected (w : World) (v : Variant) (p : Peer)
    (server : Server) (service : Service) (config : Config) (conn : Conn)
    (hm : main w v p = .listenAndServeTLS server service config) :
    (∀ caCert, w.readFile (mainConfig w v p).CAPath = .ok caCert →
      (conn.peerCertificates = [] ∨
        w.verifyChain (NewCertPool.AppendCertsFromPEM w caCert).1 conn.peerCertificates
          = false) →
      (serveConn w v p server service config conn).executed = [] ∧
      (serveConn w v p server service config conn).exchanges = [] ∧
      (serveConn w v p server service config conn).states
        = [.Listening, .Handshaking, .Rejected, .Closed]) ∧
    (ConnState.Authenticated ∈ (serveConn w v p server service config conn).states →
      ∃ caCert, w.readFile (mainConfig w v p).CAPath = .ok caCert ∧
        conn.peerCertificates ≠ [] ∧
        w.verifyChain (NewCertPool.AppendCertsFromPEM w caCert).1 conn.peerCertificates
          = true) := by
  have hcfg : v.configured p (mainConfig w v p) = mainConfig w v p := by
    cases v <;> rfl
  obtain ⟨tls, -, hsu, htls, -, -, -⟩ := main_listen_inv w v p server service config hm
  obtain ⟨cert, caCert, -, hr, -, rfl⟩ := setupMTLSServer_ok_inv w v p _ tls hsu
  rw [hcfg] at hr
  have hgate := processCertsFromClient_ok_iff w
    { Certificates := [cert], ClientAuth := .RequireAndVerifyClientCert,
      ClientCAs := some (NewCertPool.AppendCertsFromPEM w caCert).1, ServerName := p.name }
    (NewCertPool.AppendCertsFromPEM w caCert).1 conn.peerCertificates rfl rfl
  constructor
  · intro caCert' hr' hbad
    rw [hr] at hr'
    cases hr'
    cases hp : processCertsFromClient w
        { Certificates := [cert], ClientAuth := .RequireAndVerifyClientCert,
          ClientCAs := some (NewCertPool.AppendCertsFromPEM w caCert).1,
          ServerName := p.name } conn.peerCertificates with
    | error e => simp [serveConn, htls, hp]
    | ok u =>
      exfalso
      obtain ⟨hne, hv⟩ := hgate.1 hp
      rcases hbad with h0 | hf
      · exact hne h0
      · rw [hf] at hv
        cases hv
  · intro hauth
    cases hp : processCertsFromClient w
        { Certificates := [cert], ClientAuth := .RequireAndVerifyClientCert,
          ClientCAs := some (NewCertPool.AppendCertsFromPEM w caCert).1,
          ServerName := p.name } conn.peerCertificates with
    | error e => simp [serveConn, htls, hp] at hauth
    | ok u =>
      obtain ⟨hne, hv⟩ := hgate.1 hp
      exact ⟨caCert, hr, hne, hv⟩

/-- Witness for C2: service1 in the sample world, a connection with a self-signed
certificate. -/
theorem unauthenticated_connection_rejected_witness :
    main sampleWorld .base .service1
      = .listenAndServeTLS sampleServer { client := some sampleBaseClient }
          (Base.literals .service1) ∧
    (serveConn sampleWorld .base .service1 sampleServer { client := some sampleBaseClient }
        (Base.literals .service1) selfSignedConn).executed = [] :=
  ⟨rfl, ((unauthenticated_connection_rejected sampleWorld .base .service1 sampleServer
    { client := some sampleBaseClient } (Base.literals .service1) selfSignedConn rfl).1
    "sample-bundle" rfl (Or.inr rfl)).1⟩

/-! ### The text of a time -/

/-- The year of the cycle is below 400, the day of the year at most 365, and the day of
the cycle is recovered from the two. -/
theorem yearOfEra_spec (doe : Nat) (h : doe < 146097) :
    (yearOfEra doe).1 ≤ 399 ∧ (yearOfEra doe).2 ≤ 365 ∧
    (yearOfEra doe).1 * 365 + (yearOfEra doe).1 / 4 - (yearOfEra doe).1 / 100
      + (yearOfEra doe).2 = doe := by
  simp only [yearOfEra]
  have hc : min (doe / 36524) 3 ≤ 3 := Nat.min_le_right _ _
  generalize hcdef : min (doe / 36524) 3 = c at hc ⊢
  have hdoc : doe - c * 36524 ≤ 36524 ∧ c * 36524 ≤ doe ∧ (c < 3 → doe - c * 36524 < 36524) := by
    subst hcdef
    omega
  generalize hdocdef : doe - c * 36524 = doc at hdoc ⊢
  have hq : doc / 1461 ≤ 24 := by omega
  generalize hqdef : doc / 1461 = q at hq ⊢
  have hdoq : doc - q * 1461 < 1461 ∧ q * 1461 ≤ doc := by
    subst hqdef
    omega
  generalize hdoqdef : doc - q * 1461 = doq at hdoq ⊢
  have hyr : min (doq / 365) 3 ≤ 3 := Nat.min_le_right _ _
  generalize hyrdef : min (doq / 365) 3 = yr at hyr ⊢
  have hdoy : doq - yr * 365 ≤ 365 ∧ yr * 365 ≤ doq := by
    subst hyrdef
    omega
  generalize hdoydef : doq - yr * 365 = doy at hdoy ⊢
  refine ⟨by omega, by omega, ?_⟩
  have h4 : (c * 100 + q * 4 + yr) / 4 = c * 25 + q := by omega
  have h100 : (c * 100 + q * 4 + yr) / 100 = c := by omega
  rw [h4, h100]
  omega

/-- The month is one of the twelve, the day one of at most 31, and the day of the year
is recovered from the two. -/
theorem monthDay_spec (doy : Nat) (h : doy ≤ 365) :
    1 ≤ (monthDay doy).1 ∧ (monthDay doy).1 ≤ 12 ∧
    1 ≤ (monthDay doy).2 ∧ (monthDay doy).2 ≤ 31 ∧
    (153 * (if (monthDay doy).1 > 2 then (monthDay doy).1 - 3 else (monthDay doy).1 + 9) + 2) / 5
      + (monthDay doy).2 - 1 = doy := by
  simp only [monthDay]
  have hmp : (5 * doy + 2) / 153 ≤ 11 := by omega
  have hle : (153 * ((5 * doy + 2) / 153) + 2) / 5 ≤ doy := by omega
  have hd : doy - (153 * ((5 * doy + 2) / 153) + 2) / 5 ≤ 30 := by omega
  generalize hmpdef : (5 * doy + 2) / 153 = mp at hmp hle hd ⊢
  by_cases h10 : mp < 10
  · have h3 : mp + 3 > 2 := by omega
    simp only [h10, h3, if_true]
    omega
  · have h3 : ¬ (mp - 9 > 2) := by omega
    simp only [h10, h3, if_false]
    have h9 : mp - 9 + 9 = mp := by omega
    rw [h9]
    omega

/-- The day number of the calendar date of a day number is that day number. -/
theorem daysFromCivil_civilFromDays (days : Int) :
    daysFromCivil (civilFromDays days).1 (civilFromDays days).2.1 (civilFromDays days).2.2
      = days := by
  have hdoe : ((days + 719468) % 146097).toNat < 146097 := by omega
  obtain ⟨hy, hd, hsum⟩ := yearOfEra_spec _ hdoe
  obtain ⟨hm1, hm12, hd1, hd31, hback⟩ := monthDay_spec _ hd
  simp only [civilFromDays, daysFromCivil]
  rw [hback]
  generalize (yearOfEra ((days + 719468) % 146097).toNat).1 = yoe at hy hsum ⊢
  generalize (yearOfEra ((days + 719468) % 146097).toNat).2 = doy at hd hsum hm1 hm12 ⊢
  generalize (monthDay doy).1 = m at hm1 hm12 ⊢
  have hera : (if m ≤ 2 then (yoe : Int) + (days + 719468) / 146097 * 400
        + (if m ≤ 2 then 1 else 0) - 1
      else (yoe : Int) + (days + 719468) / 146097 * 400 + (if m ≤ 2 then 1 else 0))
      = (yoe : Int) + (days + 719468) / 146097 * 400 := by
    split <;> omega
  rw [hera]
  have h1 : ((yoe : Int) + (days + 719468) / 146097 * 400) / 400 = (days + 719468) / 146097 := by
    omega
  have h2 : (((yoe : Int) + (days + 719468) / 146097 * 400) % 400).toNat = yoe := by
    omega
  rw [h1, h2]
  omega

/-- A digit character is a digit. -/
theorem isDigit_digit (n : Nat) : isDigit (digit n) = true := by
  have h : n % 10 < 10 := Nat.mod_lt _ (by norm_num)
  unfold digit
  generalize n % 10 = d at h
  interval_cases d <;> rfl

/-- The value of a digit character is the digit. -/
theorem digitValue_digit (n : Nat) : digitValue (digit n) = n % 10 := by
  have h : n % 10 < 10 := Nat.mod_lt _ (by norm_num)
  unfold digit
  generalize n % 10 = d at h
  interval_cases d <;> rfl

/-- A number below 100 written in two digits is read back. -/
theorem getnum_pad2 (fixed : Bool) (n : Nat) (rest : List Char) (h : n < 100) :
    getnum fixed (pad2 n ++ rest) = some (n, rest) := by
  simp only [pad2, List.cons_append, List.nil_append, getnum, isDigit_digit, digitValue_digit]
  simp
  omega

/-- A year below 10000 written in four digits is read back. -/
theorem getYear_pad4 (n : Nat) (rest : List Char) (h : n < 10000) :
    getYear (pad4 n ++ rest) = some (n, rest) := by
  simp only [pad4, List.cons_append, List.nil_append, getYear, isDigit_digit, digitValue_digit]
  simp
  omega

/-- The digits of a fraction are digits. -/
theorem fracDigits_isDigit (k n : Nat) : ∀ c ∈ fracDigits k n, isDigit c = true := by
  induction k generalizing n with
  | zero => simp [fracDigits]
  | succ k ih =>
    unfold fracDigits
    split
    · simp
    · intro c hc
      rcases List.mem_cons.1 hc with rfl | hc
      · exact isDigit_digit _
      · exact ih _ c hc

/-- The digits of a fraction, read as leading digits, give the number back. -/
theorem leadingDigits_fracDigits (k n : Nat) (h : n < 10 ^ k) :
    leadingDigits k (fracDigits k n) = n := by
  induction k generalizing n with
  | zero =>
    simp at h
    simp [fracDigits, leadingDigits, h]
  | succ k ih =>
    unfold fracDigits
    split
    · rename_i h0
      simp [leadingDigits, h0]
    · have hpos : 0 < 10 ^ k := Nat.pow_pos (by norm_num)
      have hlt : n / 10 ^ k < 10 := by
        rw [Nat.div_lt_iff_lt_mul hpos]
        calc n < 10 ^ (k + 1) := h
          _ = 10 * 10 ^ k := by rw [pow_succ]; ring
      simp only [leadingDigits, digitValue_digit, Nat.mod_eq_of_lt hlt,
        ih _ (Nat.mod_lt _ hpos)]
      exact Nat.div_add_mod' n (10 ^ k)

/-- Digits followed by a text that does not start with a digit are split at the end of
the digits. -/
theorem takeWhile_digits (l z : List Char) (hl : ∀ c ∈ l, isDigit c = true)
    (hz : ∀ c ∈ z.head?, isDigit c = false) :
    (l ++ z).takeWhile isDigit = l ∧ (l ++ z).dropWhile isDigit = z := by
  induction l with
  | nil =>
    cases z with
    | nil => simp
    | cons a z =>
      have ha : isDigit a = false := hz a (by simp)
      simp [List.takeWhile, List.dropWhile, ha]
  | cons a l ih =>
    have ha : isDigit a = true := hl a (List.mem_cons_self _ _)
    obtain ⟨h1, h2⟩ := ih (fun c hc => hl c (List.mem_cons_of_mem _ hc))
    simp [List.takeWhile, List.dropWhile, ha, h1, h2]

/-- The text of a zone starts with a character that is no digit, period or comma. -/
theorem formatZone_head (offset : Int) :
    ∃ c rest, formatZone offset = c :: rest ∧ isDigit c = false ∧ c ≠ '.' ∧ c ≠ ',' := by
  unfold formatZone
  by_cases hz : offset = 0
  · exact ⟨'Z', [], by simp [hz], by decide, by decide, by decide⟩
  · by_cases hneg : offset ≤ -60
    · exact ⟨'-', pad2 (offset.natAbs / 60 / 60) ++ ':' :: pad2 (offset.natAbs / 60 % 60),
        by simp [hz, hneg], by decide, by decide, by decide⟩
    · exact ⟨'+', pad2 (offset.natAbs / 60 / 60) ++ ':' :: pad2 (offset.natAbs / 60 % 60),
        by simp [hz, hneg], by decide, by decide, by decide⟩

/-- The fraction of a second followed by the text of a zone is read back. -/
theorem getFraction_format (nsec : Nat) (z : List Char) (h : nsec < 10 ^ 9)
    (hz : ∃ c rest, z = c :: rest ∧ isDigit c = false ∧ c ≠ '.' ∧ c ≠ ',') :
    getFraction (formatFraction nsec ++ z) = (nsec, z) := by
  obtain ⟨c, rest, rfl, hc, hp, hcm⟩ := hz
  unfold formatFraction
  by_cases h0 : nsec = 0
  · subst h0
    cases rest with
    | nil => simp [getFraction]
    | cons d rest => simp [getFraction, hp, hcm]
  · have hdig := fracDigits_isDigit 9 nsec
    have hval := leadingDigits_fracDigits 9 nsec h
    have hsplit := takeWhile_digits (fracDigits 9 nsec) (c :: rest) hdig
      (by simp [hc])
    have hcons : ∃ d tail, fracDigits 9 nsec = d :: tail := by
      rw [fracDigits]
      simp [h0]
    obtain ⟨d, tail, hdt⟩ := hcons
    have hd : isDigit d = true := hdig d (by simp [hdt])
    rw [hdt] at hsplit hval
    simp only [h0, if_false, hdt, List.cons_append, getFraction]
    simp only [List.cons_append] at hsplit
    simp [hd, hsplit.1, hsplit.2, hval]

/-- The zone of an offset of whole minutes below 24 hours is read back. -/
theorem getZone_formatZone (offset : Int) (h60 : offset % 60 = 0)
    (h24 : offset.natAbs / 60 / 60 < 24) :
    getZone (formatZone offset) = .ok offset := by
  unfold formatZone
  by_cases hz : offset = 0
  · simp [hz, getZone]
  · by_cases hneg : offset ≤ -60
    · simp only [hz, hneg, if_true, if_false, pad2, List.cons_append, List.nil_append, getZone,
        isDigit_digit, digitValue_digit]
      simp [-Int.natCast_natAbs]
      rw [if_neg (by omega), if_neg (by omega)]
      congr 1
      omega
    · simp only [hz, hneg, if_true, if_false, pad2, List.cons_append, List.nil_append, getZone,
        isDigit_digit, digitValue_digit]
      simp [-Int.natCast_natAbs]
      rw [if_neg (by omega), if_neg (by omega)]
      congr 1
      omega

/-- A date of the calendar written as `2006-01-02` is read back as its day number. -/
theorem getDate_format (y m d : Nat) (rest : List Char) (hy : y < 10000)
    (hm1 : 1 ≤ m) (hm12 : m ≤ 12) (hd : d < 100)
    (hvalid : civilFromDays (daysFromCivil y m d) = ((y : Int), m, d)) :
    getDate (pad4 y ++ '-' :: (pad2 m ++ '-' :: (pad2 d ++ rest)))
      = .ok (daysFromCivil y m d, rest) := by
  unfold getDate
  rw [getYear_pad4 y _ hy]
  simp only [expect, if_true]
  rw [getnum_pad2 true m _ (by omega)]
  simp only [expect, if_true]
  rw [getnum_pad2 true d _ hd]
  simp only [hvalid, ne_eq, not_true_eq_false, if_false]
  rw [if_neg (by omega)]

/-- A time of day written as `T15:04:05` is read back as its second of the day. -/
theorem getClock_format (h mi s : Nat) (rest : List Char) (hh : h < 24) (hmi : mi < 60)
    (hs : s < 60) :
    getClock ('T' :: (pad2 h ++ ':' :: (pad2 mi ++ ':' :: (pad2 s ++ rest))))
      = .ok (h * 3600 + mi * 60 + s, rest) := by
  unfold getClock
  simp only [expect, if_true]
  rw [getnum_pad2 false h _ (by omega)]
  simp only [expect, if_true]
  rw [getnum_pad2 true mi _ (by omega)]
  simp only [expect, if_true]
  rw [getnum_pad2 true s _ (by omega)]
  simp only
  rw [if_neg (by omega), if_neg (by omega), if_neg (by omega)]

/-- The month of a calendar date is one of the twelve and its day one of at most 31. -/
theorem civil_month_day (days : Int) :
    1 ≤ (civilFromDays days).2.1 ∧ (civilFromDays days).2.1 ≤ 12 ∧
    1 ≤ (civilFromDays days).2.2 ∧ (civilFromDays days).2.2 ≤ 31 := by
  have hdoe : ((days + 719468) % 146097).toNat < 146097 := by omega
  obtain ⟨-, hd, -⟩ := yearOfEra_spec _ hdoe
  obtain ⟨hm1, hm12, hd1, hd31, -⟩ := monthDay_spec _ hd
  exact ⟨hm1, hm12, hd1, hd31⟩

/-- Reading the text of a time gives the time back: for a time with a year from 0
to 9999 and a zone offset of whole minutes below 24 hours, `parseRFC3339` accepts
the text that `formatRFC3339Nano` writes and returns the same instant, to the
nanosecond, and the same offset. -/
theorem parseRFC3339_formatRFC3339Nano (t : Time)
    (hy0 : 0 ≤ t.year) (hy9 : t.year ≤ 9999)
    (h24 : t.offset.natAbs / 60 / 60 < 24) (h60 : t.offset % 60 = 0) :
    parseRFC3339 (formatRFC3339Nano t)
      = .ok { unixNano := t.unixNano, offset := t.offset, monotonic := none } := by
  unfold Time.year at hy0 hy9
  obtain ⟨hm1, hm12, hd1, hd31⟩ := civil_month_day (t.abs / 86400)
  have hback := daysFromCivil_civilFromDays (t.abs / 86400)
  have hyear : ((civilFromDays (t.abs / 86400)).1.toNat : Int)
      = (civilFromDays (t.abs / 86400)).1 := Int.toNat_of_nonneg hy0
  have hvalid : civilFromDays (daysFromCivil
        (((civilFromDays (t.abs / 86400)).1.toNat : Nat) : Int)
        (civilFromDays (t.abs / 86400)).2.1 (civilFromDays (t.abs / 86400)).2.2)
      = ((((civilFromDays (t.abs / 86400)).1.toNat : Nat) : Int),
          (civilFromDays (t.abs / 86400)).2.1, (civilFromDays (t.abs / 86400)).2.2) := by
    rw [hyear, hback]
  have hsecs : (t.abs % 86400).toNat < 86400 := by omega
  have hnsec : t.nsec < 10 ^ 9 := by
    unfold Time.nsec
    omega
  unfold parseRFC3339 formatRFC3339Nano
  simp only
  rw [getDate_format _ _ _ _ (by omega) hm1 hm12 (by omega) hvalid]
  simp only
  rw [getClock_format _ _ _ _ (by omega) (by omega) (by omega)]
  simp only
  rw [getFraction_format _ _ hnsec (formatZone_head _)]
  simp only
  rw [getZone_formatZone _ h60 h24]
  simp only [Except.ok.injEq, Time.mk.injEq, and_true]
  rw [hyear, hback]
  unfold Time.nsec Time.abs
  omega

/-- A time that `Time.MarshalJSON` accepts is encoded as its text. -/
theorem marshalTime_ok (w : World) (t : Time) (h : t.encodable = true) :
    w.marshalTime t = .ok (w.formatTime t) := by
  simp only [Time.encodable, Bool.and_eq_true, decide_eq_true_eq] at h
  obtain ⟨⟨h0, h9⟩, h24⟩ := h
  simp [World.marshalTime, h0, h9, h24]

/-- A time that `Time.MarshalJSON` does not accept is refused. -/
theorem marshalTime_error (w : World) (t : Time) (h : t.encodable = false) :
    ∃ e, w.marshalTime t = .error e := by
  unfold World.marshalTime
  split
  · exact ⟨_, rfl⟩
  · split
    · exact ⟨_, rfl⟩
    · rename_i h1 h2
      simp only [Time.encodable] at h
      simp only [Bool.not_eq_true] at h1 h2
      simp at h1 h2
      simp [h1.1, h1.2, h2] at h

/-- The clock reading is a time that `Time.MarshalJSON` accepts. -/
theorem now_encodable (w : World) : w.now.encodable = true := by
  have h := w.nowInRange
  simp only [Time.clockReading, Bool.and_eq_true] at h
  exact h.1

/-- The zero time is a time that `Time.MarshalJSON` accepts. -/
theorem zero_encodable : Time.zero.encodable = true := by with_unfolding_all rfl

/-- A time parsed from the text of a time that the clock gives is the same instant
in the same zone, without the monotonic clock reading. -/
theorem parseTime_formatTime (w : World) (t : Time) (h : t.clockReading = true) :
    w.parseTime (w.formatTime t)
      = .ok { unixNano := t.unixNano, offset := t.offset, monotonic := none } := by
  simp only [Time.clockReading, Time.encodable, Bool.and_eq_true, decide_eq_true_eq] at h
  obtain ⟨⟨⟨h0, h9⟩, h24⟩, h60⟩ := h
  exact parseRFC3339_formatRFC3339Nano t h0 h9 h24 h60

/-! ### The relay handler -/

/-- The relay handler of either family is the shared body applied to its URL. -/
theorem callServiceHandler_eq (w : World) (v : Variant) (p : Peer) (client : HTTPClient)
    (rw : ResponseWriter) (peerURL : String) :
    callServiceHandler w v p client rw peerURL
      = relay w p client rw (relayTarget v p peerURL) := by
  cases v <;> rfl

/-- The reply that `http.Error` writes on a fresh response writer. -/
theorem Error_fresh (message : String) (code : Nat) :
    Error {} message code =
      { header := [("Content-Type", "text/plain; charset=utf-8"),
                   ("X-Content-Type-Options", "nosniff")]
        wroteHeader := true
        status := code
        body := [.text (message ++ "\n")] } := by
  simp [Error, ResponseWriter.delHeader, ResponseWriter.setHeader, ResponseWriter.WriteHeader,
    ResponseWriter.Write]

/-- The reply that a handler writes on a fresh response writer when it sets the
JSON content type and encodes a response that the encoder accepts. -/
theorem Encode_fresh (w : World) (response : Response) (x : JSON)
    (h : Marshal w response = .ok x) :
    Encode w (ResponseWriter.setHeader {} "Content-Type" "application/json") response =
      { header := [("Content-Type", "application/json")]
        wroteHeader := true
        status := 200
        body := [.json x] } := by
  simp [Encode, h, ResponseWriter.setHeader, ResponseWriter.WriteHeader, ResponseWriter.Write]

/-- When the encoder refuses the response, the handler leaves the response writer
with the content type set and nothing written. -/
theorem Encode_refused (w : World) (response : Response) (e : String)
    (h : Marshal w response = .error e) :
    Encode w (ResponseWriter.setHeader {} "Content-Type" "application/json") response =
      { header := [("Content-Type", "application/json")]
        wroteHeader := false
        status := 0
        body := [] } := by
  simp [Encode, h, ResponseWriter.setHeader]

/-- The relay handler when the `Get` fails. -/
theorem relay_get_error (w : World) (p : Peer) (client : HTTPClient) (url : String)
    (err : String) (hg : w.get client url = .error err) :
    relay w p client {} url =
      { rw := Error {} (p.callFailed ++ err) StatusInternalServerError, calls := [url] } := by
  unfold relay
  simp only [hg]

/-- The relay handler when reading the body fails. -/
theorem relay_read_error (w : World) (p : Peer) (client : HTTPClient) (url : String)
    (resp : HTTPResponse) (err : String) (hg : w.get client url = .ok resp)
    (hb : resp.Body = .error err) :
    relay w p client {} url =
      { rw := Error {} (p.readFailed ++ err) StatusInternalServerError, calls := [url] } := by
  unfold relay
  simp only [hg, hb]

/-- The relay handler when decoding the body fails. -/
theorem relay_parse_error (w : World) (p : Peer) (client : HTTPClient) (url : String)
    (resp : HTTPResponse) (body err : String) (hg : w.get client url = .ok resp)
    (hb : resp.Body = .ok body) (hu : Unmarshal w body {} = .error err) :
    relay w p client {} url =
      { rw := Error {} (p.parseFailed ++ err) StatusInternalServerError, calls := [url] } := by
  unfold relay
  simp only [hg, hb, hu]

/-- The relay handler after a successful decoding: it sets the content type and
encodes its reply around the decoded peer response. -/
theorem relay_after_decode (w : World) (p : Peer) (client : HTTPClient) (url : String)
    (resp : HTTPResponse) (body : String) (inner : Response)
    (hg : w.get client url = .ok resp) (hb : resp.Body = .ok body)
    (hu : Unmarshal w body {} = .ok inner) :
    relay w p client {} url =
      { rw := Encode w (ResponseWriter.setHeader {} "Content-Type" "application/json")
          (relayReply w p inner)
        calls := [url] } := by
  unfold relay
  simp only [hg, hb, hu]
  rfl

/-- C5: in all four programs the relay handler makes exactly one `Get` call, to the
relay URL; when the `Get` fails it replies 500 with the plain text
`Failed to call <peer>: ` and the error, when reading the body fails it replies 500
with `Failed to read response from <peer>: ` and the error, when decoding fails it
replies 500 with `Failed to parse response from <peer>: ` and the error, the stage
that fails first deciding; it replies 500 exactly when one of the three stages fails;
a failure reply holds no encoded response; and no reply of one kind starts with the
text of another kind. -/
theorem relay_failure_stages (w : World) (v : Variant) (p : Peer) (client : HTTPClient)
    (peerURL : String) :
    (callServiceHandler w v p client {} peerURL).calls = [relayTarget v p peerURL] ∧
    (∀ err, w.get client (relayTarget v p peerURL) = .error err →
      (callServiceHandler w v p client {} peerURL).rw.status = 500 ∧
      (callServiceHandler w v p client {} peerURL).rw.getHeader "Content-Type"
        = some "text/plain; charset=utf-8" ∧
      (callServiceHandler w v p client {} peerURL).rw.body
        = [.text ("Failed to call " ++ p.other.name ++ ": " ++ err ++ "\n")]) ∧
    (∀ resp err, w.get client (relayTarget v p peerURL) = .ok resp →
      resp.Body = .error err →
      (callServiceHandler w v p client {} peerURL).rw.status = 500 ∧
      (callServiceHandler w v p client {} peerURL).rw.getHeader "Content-Type"
        = some "text/plain; charset=utf-8" ∧
      (callServiceHandler w v p client {} peerURL).rw.body
        = [.text ("Failed to read response from " ++ p.other.name ++ ": " ++ err ++ "\n")]) ∧
    (∀ resp body err, w.get client (relayTarget v p peerURL) = .ok resp →
      resp.Body = .ok body → Unmarshal w body {} = .error err →
      (callServiceHandler w v p client {} peerURL).rw.status = 500 ∧
      (callServiceHandler w v p client {} peerURL).rw.getHeader "Content-Type"
        = some "text/plain; charset=utf-8" ∧
      (callServiceHandler w v p client {} peerURL).rw.body
        = [.text ("Failed to parse response from " ++ p.other.name ++ ": " ++ err ++ "\n")]) ∧
    ((callServiceHandler w v p client {} peerURL).rw.status = 500 ↔
      (∃ err, w.get client (relayTarget v p peerURL) = .error err) ∨
      (∃ resp err, w.get client (relayTarget v p peerURL) = .ok resp ∧
        resp.Body = .error err) ∨
      (∃ resp body err, w.get client (relayTarget v p peerURL) = .ok resp ∧
        resp.Body = .ok body ∧ Unmarshal w body {} = .error err)) ∧
    ((callServiceHandler w v p client {} peerURL).rw.status = 500 →
      ∀ part ∈ (callServiceHandler w v p client {} peerURL).rw.body,
        part.isJSON = false) ∧
    (∀ err : String,
      ¬ ("Failed to read response from " ++ p.other.name ++ ": ").data
          <+: ("Failed to call " ++ p.other.name ++ ": " ++ err).data ∧
      ¬ ("Failed to parse response from " ++ p.other.name ++ ": ").data
          <+: ("Failed to call " ++ p.other.name ++ ": " ++ err).data ∧
      ¬ ("Failed to call " ++ p.other.name ++ ": ").data
          <+: ("Failed to read response from " ++ p.other.name ++ ": " ++ err).data ∧
      ¬ ("Failed to parse response from " ++ p.other.name ++ ": ").data
          <+: ("Failed to read response from " ++ p.other.name ++ ": " ++ err).data ∧
      ¬ ("Failed to call " ++ p.other.name ++ ": ").data
          <+: ("Failed to parse response from " ++ p.other.name ++ ": " ++ err).data ∧
      ¬ ("Failed to read response from " ++ p.other.name ++ ": ").data
          <+: ("Failed to parse response from " ++ p.other.name ++ ": " ++ err).data) := by
  have hcall : p.callFailed = "Failed to call " ++ p.other.name ++ ": " := by
    cases p <;> decide
  have hread : p.readFailed = "Failed to read response from " ++ p.other.name ++ ": " := by
    cases p <;> decide
  have hparse : p.parseFailed = "Failed to parse response from " ++ p.other.name ++ ": " := by
    cases p <;> decide
  rw [callServiceHandler_eq]
  cases hg : w.get client (relayTarget v p peerURL) with
  | error e =>
    rw [relay_get_error w p client _ e hg]
    simp [Error_fresh, StatusInternalServerError, ResponseWriter.getHeader, hcall,
      BodyPart.isJSON, String.append_assoc]
  | ok resp =>
    cases hb : resp.Body with
    | error e =>
      rw [relay_read_error w p client _ resp e hg hb]
      simp [hb, Error_fresh, StatusInternalServerError, ResponseWriter.getHeader, hread,
        BodyPart.isJSON, String.append_assoc]
      refine ⟨?_, ?_⟩
      · rintro resp' err rfl hb'
        rw [hb] at hb'
        cases hb'
        rfl
      · rintro resp' body err rfl hb'
        rw [hb] at hb'
        cases hb'
    | ok body =>
      cases hu : Unmarshal w body {} with
      | error e =>
        rw [relay_parse_error w p client _ resp body e hg hb hu]
        simp [hb, hu, Error_fresh, StatusInternalServerError, ResponseWriter.getHeader,
          hparse, BodyPart.isJSON, String.append_assoc]
        refine ⟨?_, ?_⟩
        · rintro resp' err rfl hb'
          rw [hb] at hb'
          cases hb'
        · rintro resp' body' err rfl hb' hu'
          rw [hb] at hb'
          cases hb'
          rw [hu] at hu'
          cases hu'
          rfl
      | ok inner =>
        rw [relay_after_decode w p client _ resp body inner hg hb hu]
        cases hm : Marshal w (relayReply w p inner) with
        | error e =>
          rw [Encode_refused _ _ _ hm]
          simp [hb, hu]
          refine ⟨?_, ?_⟩
          · rintro resp' err rfl hb'
            rw [hb] at hb'
            cases hb'
          · rintro resp' body' err rfl hb' hu'
            rw [hb] at hb'
            cases hb'
            rw [hu] at hu'
            cases hu'
        | ok x =>
          rw [Encode_fresh _ _ _ hm]
          simp [hb, hu]
          refine ⟨?_, ?_⟩
          · rintro resp' err rfl hb'
            rw [hb] at hb'
            cases hb'
          · rintro resp' body' err rfl hb' hu'
            rw [hb] at hb'
            cases hb'
            rw [hu] at hu'
            cases hu'

/-- Witness for C5: with the peer unreachable the relay handler of service1 replies
500 with the text for a failed call. -/
theorem relay_failure_stages_witness :
    unreachableWorld.get sampleBaseClient (relayTarget .base .service1 "")
      = .error "dial tcp: connection refused" ∧
    (callServiceHandler unreachableWorld .base .service1 sampleBaseClient {} "").rw.status
      = 500 ∧
    (callServiceHandler unreachableWorld .base .service1 sampleBaseClient {} "").rw.getHeader
        "Content-Type" = some "text/plain; charset=utf-8" ∧
    (callServiceHandler unreachableWorld .base .service1 sampleBaseClient {} "").rw.body
      = [.text ("Failed to call " ++ Peer.service1.other.name ++ ": "
          ++ "dial tcp: connection refused" ++ "\n")] :=
  ⟨rfl, (relay_failure_stages unreachableWorld .base .service1 sampleBaseClient "").2.1
    "dial tcp: connection refused" rfl⟩

/-! ### Encoding a response -/

/-- The encoding of a `Response` value: the time has to be accepted, the three fixed
members come in order, and the member `data` follows unless the data is nil. -/
theorem marshalValue_response (w : World) (s m : String) (t : Time) (d : GoValue) :
    marshalValue w (.response s m t d) =
      match w.marshalTime t with
      | .error e => .error e
      | .ok text =>
        match d with
        | .nil =>
          .ok (.obj [("service", .str s), ("message", .str m), ("timestamp", .str text)])
        | d =>
          match marshalValue w d with
          | .error e => .error e
          | .ok y =>
            .ok (.obj [("service", .str s), ("message", .str m), ("timestamp", .str text),
                       ("data", y)]) := by
  rw [marshalValue]

/-- The encoding of a response without data whose time is accepted. -/
theorem Marshal_nil (w : World) (r : Response) (ht : r.Timestamp.encodable = true)
    (hd : r.Data = .nil) :
    Marshal w r =
      .ok (.obj [("service", .str r.Service), ("message", .str r.Message),
                 ("timestamp", .str (w.formatTime r.Timestamp))]) := by
  unfold Marshal Response.toValue
  rw [marshalValue_response, marshalTime_ok w _ ht, hd]

/-- The encoding of a response with data whose time is accepted and whose data is
encoded as `y`. -/
theorem Marshal_data (w : World) (r : Response) (y : JSON) (ht : r.Timestamp.encodable = true)
    (hd : r.Data ≠ .nil) (hy : marshalValue w r.Data = .ok y) :
    Marshal w r =
      .ok (.obj [("service", .str r.Service), ("message", .str r.Message),
                 ("timestamp", .str (w.formatTime r.Timestamp)), ("data", y)]) := by
  unfold Marshal Response.toValue
  rw [marshalValue_response, marshalTime_ok w _ ht]
  cases hD : r.Data with
  | nil => exact absurd hD hd
  | _ => simp only [← hD, hy]

/-- The encoder refuses a response whose time it does not accept. -/
theorem Marshal_refused (w : World) (r : Response) (ht : r.Timestamp.encodable = false) :
    ∃ e, Marshal w r = .error e := by
  obtain ⟨e, he⟩ := marshalTime_error w _ ht
  refine ⟨e, ?_⟩
  unfold Marshal Response.toValue
  rw [marshalValue_response, he]

/-- The encoding of the reply of the relay handler around a peer response that is
encoded as `x`. -/
theorem Marshal_relayReply (w : World) (p : Peer) (inner : Response) (x : JSON)
    (hx : Marshal w inner = .ok x) :
    Marshal w (relayReply w p inner) =
      .ok (.obj [("service", .str p.name), ("message", .str p.relayMessage),
                 ("timestamp", .str (w.formatTime w.now)), ("data", x)]) :=
  Marshal_data w (relayReply w p inner) x (now_encodable w) (fun h => nomatch h) hx

/-- The encoder refuses the reply of the relay handler when it refuses the peer
response inside. -/
theorem Marshal_relayReply_refused (w : World) (p : Peer) (inner : Response) (e : String)
    (hx : Marshal w inner = .error e) :
    Marshal w (relayReply w p inner) = .error e := by
  have hx' : marshalValue w (.response inner.Service inner.Message inner.Timestamp inner.Data)
      = .error e := hx
  unfold Marshal Response.toValue relayReply
  rw [marshalValue_response, marshalTime_ok w _ (now_encodable w)]
  simp only [Response.toValue, hx']

/-! ### Values decoded from JSON can be encoded -/

/-- A map stays encodable when an encodable value is stored in it. -/
theorem marshalMembers_setKey (w : World) (k : String) (v : GoValue) (y : JSON)
    (hv : marshalValue w v = .ok y) (m : List (String × GoValue))
    (hm : ∃ ys, marshalMembers w m = .ok ys) :
    ∃ ys, marshalMembers w (setKey k v m) = .ok ys := by
  induction m with
  | nil => exact ⟨[(k, y)], by simp [setKey, marshalMembers, hv]⟩
  | cons kv m ih =>
    obtain ⟨k', v'⟩ := kv
    obtain ⟨ys, hys⟩ := hm
    rw [marshalMembers] at hys
    cases hv' : marshalValue w v' with
    | error e => simp [hv'] at hys
    | ok y' =>
      cases hm' : marshalMembers w m with
      | error e => simp [hv', hm'] at hys
      | ok ys' =>
        unfold setKey
        split
        · exact ⟨(k, y) :: ys', by simp [marshalMembers, hv, hm']⟩
        · obtain ⟨zs, hzs⟩ := ih ⟨ys', hm'⟩
          exact ⟨(k', y') :: zs, by simp [marshalMembers, hv', hzs]⟩

mutual
/-- A value decoded from JSON into an interface is encoded without error: it holds
no time. -/
theorem marshalValue_decodeAny (w : World) :
    ∀ (x : JSON) (g : GoValue), decodeAny w x = .ok g → ∃ y, marshalValue w g = .ok y
  | .null, g, h => by
    simp only [decodeAny, Except.ok.injEq] at h
    subst h
    exact ⟨.null, by simp [marshalValue]⟩
  | .bool b, g, h => by
    simp only [decodeAny, Except.ok.injEq] at h
    subst h
    exact ⟨.bool b, by simp [marshalValue]⟩
  | .num lit, g, h => by
    rw [decodeAny] at h
    cases hp : w.parseFloat lit with
    | error e => simp [hp] at h
    | ok f =>
      simp only [hp, Except.ok.injEq] at h
      subst h
      exact ⟨.num (w.formatFloat f), by simp [marshalValue, w.parseFloatFinite lit f hp]⟩
  | .str s, g, h => by
    simp only [decodeAny, Except.ok.injEq] at h
    subst h
    exact ⟨.str s, by simp [marshalValue]⟩
  | .arr xs, g, h => by
    rw [decodeAny] at h
    cases hxs : decodeAnys w xs with
    | error e => simp [hxs] at h
    | ok gs =>
      simp only [hxs, Except.ok.injEq] at h
      subst h
      obtain ⟨ys, hys⟩ := marshalValues_decodeAnys w xs gs hxs
      exact ⟨.arr ys, by simp [marshalValue, hys]⟩
  | .obj kvs, g, h => by
    rw [decodeAny] at h
    cases hkvs : decodeMembers w kvs [] with
    | error e => simp [hkvs] at h
    | ok m =>
      simp only [hkvs, Except.ok.injEq] at h
      subst h
      obtain ⟨ys, hys⟩ := marshalMembers_decodeMembers w kvs [] m
        ⟨[], by simp [marshalMembers]⟩ hkvs
      exact ⟨.obj (sortMembers ys), by simp [marshalValue, hys]⟩
/-- The elements decoded from a JSON array are encoded without error. -/
theorem marshalValues_decodeAnys (w : World) :
    ∀ (xs : List JSON) (gs : List GoValue), decodeAnys w xs = .ok gs →
      ∃ ys, marshalValues w gs = .ok ys
  | [], gs, h => by
    simp only [decodeAnys, Except.ok.injEq] at h
    subst h
    exact ⟨[], by simp [marshalValues]⟩
  | x :: xs, gs, h => by
    rw [decodeAnys] at h
    cases hx : decodeAny w x with
    | error e => simp [hx] at h
    | ok g =>
      cases hxs : decodeAnys w xs with
      | error e => simp [hx, hxs] at h
      | ok gs' =>
        simp only [hx, hxs, Except.ok.injEq] at h
        subst h
        obtain ⟨y, hy⟩ := marshalValue_decodeAny w x g hx
        obtain ⟨ys, hys⟩ := marshalValues_decodeAnys w xs gs' hxs
        exact ⟨y :: ys, by simp [marshalValues, hy, hys]⟩
/-- The map decoded from the members of a JSON object is encoded without error. -/
theorem marshalMembers_decodeMembers (w : World) :
    ∀ (kvs : List (String × JSON)) (m m' : List (String × GoValue)),
      (∃ ys, marshalMembers w m = .ok ys) → decodeMembers w kvs m = .ok m' →
      ∃ ys, marshalMembers w m' = .ok ys
  | [], m, m', hm, h => by
    simp only [decodeMembers, Except.ok.injEq] at h
    subst h
    exact hm
  | (k, x) :: kvs, m, m', hm, h => by
    rw [decodeMembers] at h
    cases hx : decodeAny w x with
    | error e => simp [hx] at h
    | ok g =>
      simp only [hx] at h
      obtain ⟨y, hy⟩ := marshalValue_decodeAny w x g hx
      exact marshalMembers_decodeMembers w kvs (setKey k g m) m'
        (marshalMembers_setKey w k g y hy m hm) h
end

/-- Storing into the interface field is the generic decoding of the value. -/
theorem storeField_Data (w : World) (st : DecodeState) (x : JSON) :
    storeField w st .Data x =
      match decodeAny w x with
      | .error e => .ok (st.saveError e)
      | .ok v => .ok { st with value := { st.value with Data := v } } := by
  cases x <;> rfl

/-- Storing a value into a field keeps the data of the response encodable. -/
theorem storeField_data_encodable (w : World) (st st' : DecodeState) (f : Field) (x : JSON)
    (h : storeField w st f x = .ok st')
    (hP : ∃ y, marshalValue w st.value.Data = .ok y) :
    ∃ y, marshalValue w st'.value.Data = .ok y := by
  cases f with
  | Service =>
    cases x <;> simp only [storeField, Except.ok.injEq] at h <;> subst h <;>
      first
        | exact hP
        | (unfold DecodeState.saveError; split <;> exact hP)
  | Message =>
    cases x <;> simp only [storeField, Except.ok.injEq] at h <;> subst h <;>
      first
        | exact hP
        | (unfold DecodeState.saveError; split <;> exact hP)
  | Timestamp =>
    cases x with
    | null =>
      simp only [storeField, Except.ok.injEq] at h
      subst h
      exact hP
    | str s =>
      rw [storeField] at h
      cases hp : w.parseTime s with
      | error e => simp [hp] at h
      | ok t =>
        simp only [hp, Except.ok.injEq] at h
        subst h
        exact hP
    | bool b => simp [storeField] at h
    | num lit => simp [storeField] at h
    | arr xs => simp [storeField] at h
    | obj kvs => simp [storeField] at h
  | Data =>
    rw [storeField_Data] at h
    cases hd : decodeAny w x with
    | error e =>
      simp only [hd, Except.ok.injEq] at h
      subst h
      unfold DecodeState.saveError
      split <;> exact hP
    | ok g =>
      simp only [hd, Except.ok.injEq] at h
      subst h
      exact marshalValue_decodeAny w x g hd

/-- Decoding the members of an object keeps the data of the response encodable. -/
theorem storeMembers_data_encodable (w : World) (kvs : List (String × JSON))
    (st st' : DecodeState) (h : storeMembers w kvs st = .ok st')
    (hP : ∃ y, marshalValue w st.value.Data = .ok y) :
    ∃ y, marshalValue w st'.value.Data = .ok y := by
  induction kvs generalizing st with
  | nil =>
    simp only [storeMembers, Except.ok.injEq] at h
    subst h
    exact hP
  | cons kv kvs ih =>
    obtain ⟨k, x⟩ := kv
    rw [storeMembers] at h
    cases hf : fieldFor w k with
    | none =>
      simp only [hf] at h
      exact ih st h hP
    | some f =>
      simp only [hf] at h
      cases hs : storeField w st f x with
      | error e => simp [hs] at h
      | ok st₁ =>
        simp only [hs] at h
        exact ih st₁ h (storeField_data_encodable w st st₁ f x hs hP)

/-- The data of a response that `json.Unmarshal` has filled is encoded without
error. -/
theorem Unmarshal_data_encodable (w : World) (body : String) (inner : Response)
    (h : Unmarshal w body {} = .ok inner) : ∃ y, marshalValue w inner.Data = .ok y := by
  have hnil : ∃ y, marshalValue w ({} : Response).Data = .ok y :=
    ⟨.null, by simp [marshalValue]⟩
  unfold Unmarshal at h
  cases hs : w.scan body with
  | error e => simp [hs] at h
  | ok x =>
    simp only [hs] at h
    cases x with
    | null =>
      simp only [unmarshalValue, Except.ok.injEq] at h
      subst h
      exact hnil
    | obj kvs =>
      simp only [unmarshalValue] at h
      cases hst : storeMembers w kvs { value := {}, savedError := none } with
      | error e => simp [hst] at h
      | ok st =>
        simp only [hst] at h
        cases hse : st.savedError with
        | some e => simp [hse] at h
        | none =>
          simp only [hse, Except.ok.injEq] at h
          subst h
          exact storeMembers_data_encodable w kvs _ st hst hnil
    | bool b => simp [unmarshalValue] at h
    | num lit => simp [unmarshalValue] at h
    | str s => simp [unmarshalValue] at h
    | arr xs => simp [unmarshalValue] at h

/-- The encoding of a decoded peer response whose time the encoder accepts: an
object with `service`, `message` and `timestamp` of the response, and `data` when
the response has data. -/
theorem Marshal_decoded (w : World) (body : String) (inner : Response)
    (hu : Unmarshal w body {} = .ok inner) (hts : inner.Timestamp.encodable = true) :
    ∃ x y, Marshal w inner = .ok x ∧ marshalValue w inner.Data = .ok y ∧
      x.keys = ["service", "message", "timestamp"] ++
        (match inner.Data with
         | .nil => []
         | _ => ["data"]) ∧
      x.member "service" = some (.str inner.Service) ∧
      x.member "message" = some (.str inner.Message) ∧
      x.member "timestamp" = some (.str (w.formatTime inner.Timestamp)) ∧
      x.member "data" =
        (match inner.Data with
         | .nil => none
         | _ => some y) := by
  obtain ⟨y, hy⟩ := Unmarshal_data_encodable w body inner hu
  by_cases hd : inner.Data = .nil
  · refine ⟨_, y, Marshal_nil w inner hts hd, hy, ?_, ?_, ?_, ?_, ?_⟩ <;>
      simp [hd, JSON.keys, JSON.member]
  · refine ⟨_, y, Marshal_data w inner y hts hd hy, hy, ?_, ?_, ?_, ?_, ?_⟩
    · cases hD : inner.Data <;> first | exact absurd hD hd | simp [JSON.keys]
    · simp [JSON.member]
    · simp [JSON.member]
    · simp [JSON.member]
    · cases hD : inner.Data <;> first | exact absurd hD hd | simp [JSON.member]

/-- The reply of the relay handler for a decoded peer response that the encoder
accepts: status 200, content type `application/json` and one encoded object whose
`data` member is the encoding of the decoded response. -/
theorem relay_encoded (w : World) (v : Variant) (p : Peer) (client : HTTPClient)
    (peerURL : String) (resp : HTTPResponse) (body : String) (inner : Response) (x : JSON)
    (hg : w.get client (relayTarget v p peerURL) = .ok resp)
    (hb : resp.Body = .ok body) (hu : Unmarshal w body {} = .ok inner)
    (hx : Marshal w inner = .ok x) :
    (callServiceHandler w v p client {} peerURL).rw.status = 200 ∧
    (callServiceHandler w v p client {} peerURL).rw.getHeader "Content-Type"
      = some "application/json" ∧
    (callServiceHandler w v p client {} peerURL).rw.body
      = [.json (.obj [("service", .str p.name),
          ("message", .str ("Successfully called " ++ p.other.name ++ " via mTLS")),
          ("timestamp", .str (w.formatTime w.now)),
          ("data", x)])] := by
  have hmsg : p.relayMessage = "Successfully called " ++ p.other.name ++ " via mTLS" := by
    cases p <;> decide
  refine ⟨?_, ?_, ?_⟩
  · rw [callServiceHandler_eq, relay_after_decode w p client _ resp body inner hg hb hu,
      Encode_fresh _ _ _ (Marshal_relayReply w p inner x hx)]
  · rw [callServiceHandler_eq, relay_after_decode w p client _ resp body inner hg hb hu,
      Encode_fresh _ _ _ (Marshal_relayReply w p inner x hx)]
    rfl
  · rw [callServiceHandler_eq, relay_after_decode w p client _ resp body inner hg hb hu,
      Encode_fresh _ _ _ (Marshal_relayReply w p inner x hx), hmsg]

/-- C6, as the code has it: in all four programs, when the `Get`, the read of the
body and the decoding all succeed and the decoded timestamp is one that the encoder
accepts (a year from 0 to 9999 and a zone offset below 24 hours), the relay handler
replies 200 with content type `application/json` and one encoded object with
exactly the members `service` (the own name of the relaying peer), `message`
(`Successfully called <peer> via mTLS`), `timestamp` and `data`, in this order,
where `data` is the encoding of the whole decoded peer response: an object of its
own with `service`, `message` and `timestamp` of the peer response (and its `data`
when it has one), so nothing of the inner response is a member of the outer
object. -/
theorem relay_nests_envelope (w : World) (v : Variant) (p : Peer) (client : HTTPClient)
    (peerURL : String) (resp : HTTPResponse) (body : String) (inner : Response)
    (hg : w.get client (relayTarget v p peerURL) = .ok resp)
    (hb : resp.Body = .ok body) (hu : Unmarshal w body {} = .ok inner)
    (hts : inner.Timestamp.encodable = true) :
    ∃ x y, Marshal w inner = .ok x ∧ marshalValue w inner.Data = .ok y ∧
      (callServiceHandler w v p client {} peerURL).rw.status = 200 ∧
      (callServiceHandler w v p client {} peerURL).rw.getHeader "Content-Type"
        = some "application/json" ∧
      (callServiceHandler w v p client {} peerURL).rw.body
        = [.json (.obj [("service", .str p.name),
            ("message", .str ("Successfully called " ++ p.other.name ++ " via mTLS")),
            ("timestamp", .str (w.formatTime w.now)),
            ("data", x)])] ∧
      x.keys = ["service", "message", "timestamp"] ++
        (match inner.Data with
         | .nil => []
         | _ => ["data"]) ∧
      x.member "service" = some (.str inner.Service) ∧
      x.member "message" = some (.str inner.Message) ∧
      x.member "timestamp" = some (.str (w.formatTime inner.Timestamp)) ∧
      x.member "data" =
        (match inner.Data with
         | .nil => none
         | _ => some y) := by
  obtain ⟨x, y, hx, hy, hkeys, h1, h2, h3, h4⟩ := Marshal_decoded w body inner hu hts
  obtain ⟨hstatus, hheader, hbody⟩ :=
    relay_encoded w v p client peerURL resp body inner x hg hb hu hx
  exact ⟨x, y, hx, hy, hstatus, hheader, hbody, hkeys, h1, h2, h3, h4⟩

/-- Witness for C6: service1 in the sample world relays the health reply of
service2. -/
theorem relay_nests_envelope_witness :
    sampleWorld.get sampleBaseClient (relayTarget .base .service1 "")
      = .ok { StatusCode := 200, Body := .ok sampleHealthBody } ∧
    Unmarshal sampleWorld sampleHealthBody {} = .ok sampleHealthResponse ∧
    sampleHealthResponse.Timestamp.encodable = true ∧
    (callServiceHandler sampleWorld .base .service1 sampleBaseClient {} "").rw.body
      = [.json (.obj [("service", .str "service1"),
          ("message", .str "Successfully called service2 via mTLS"),
          ("timestamp", .str "2024-01-01T00:00:00Z"),
          ("data", sampleHealthJSON)])] := by
  obtain ⟨x, y, hx, -, -, -, hbody, -⟩ :=
    relay_nests_envelope sampleWorld .base .service1 sampleBaseClient ""
      { StatusCode := 200, Body := .ok sampleHealthBody } sampleHealthBody
      sampleHealthResponse rfl rfl rfl (by with_unfolding_all rfl)
  have hx' : Marshal sampleWorld sampleHealthResponse = .ok sampleHealthJSON := by
    with_unfolding_all rfl
  rw [hx'] at hx
  cases hx
  exact ⟨rfl, rfl, by with_unfolding_all rfl, hbody⟩

/-- C6, counterexample: the peer of service1 answers with a body whose timestamp has
a zone offset of 24 hours.  The `Get`, the read and the decoding succeed, but the
encoder refuses the reply, the handler drops that error, and no object is written:
the body of the reply stays empty and the server sends it with status 200. -/
theorem relay_drops_unencodable :
    zoneHourWorld.get sampleBaseClient (relayTarget .base .service1 "")
      = .ok { StatusCode := 200, Body := .ok zoneHourBody } ∧
    Unmarshal zoneHourWorld zoneHourBody {} = .ok { Timestamp := zoneHourTime } ∧
    zoneHourWorld.marshalTime zoneHourTime
      = .error "Time.MarshalJSON: timezone hour outside of range [0,23]" ∧
    (callServiceHandler zoneHourWorld .base .service1 sampleBaseClient {} "").rw.body = [] ∧
    (callServiceHandler zoneHourWorld .base .service1 sampleBaseClient {} "").finish.rw.status
      = 200 :=
  ⟨rfl, rfl, by with_unfolding_all rfl, by with_unfolding_all rfl,
    by with_unfolding_all rfl⟩

/-! ### The health handler -/

/-- C9: on either peer `healthHandler` replies with status 200, content type
`application/json` and one encoded object whose members are `service` (the own name
of the peer), `message` (a text that contains `healthy`) and `timestamp`; the object
has no member `data` at all, and the handler calls nobody. -/
theorem healthHandler_reply (w : World) (p : Peer) :
    (healthHandler w p {}).rw.status = 200 ∧
    (healthHandler w p {}).rw.getHeader "Content-Type" = some "application/json" ∧
    (healthHandler w p {}).rw.body
      = [.json (.obj [("service", .str p.name), ("message", .str p.healthMessage),
          ("timestamp", .str (w.formatTime w.now))])] ∧
    "healthy".data <:+: p.healthMessage.data ∧
    (∀ x, (healthHandler w p {}).rw.body = [.json x] →
      x.keys = ["service", "message", "timestamp"] ∧ x.member "data" = none) ∧
    (healthHandler w p {}).calls = [] := by
  have hm : Marshal w { Service := p.name, Message := p.healthMessage, Timestamp := w.now }
      = .ok (.obj [("service", .str p.name), ("message", .str p.healthMessage),
          ("timestamp", .str (w.formatTime w.now))]) :=
    Marshal_nil w _ (now_encodable w) rfl
  have hex : healthHandler w p {} =
      { rw := { header := [("Content-Type", "application/json")]
                wroteHeader := true
                status := 200
                body := [.json (.obj [("service", .str p.name),
                  ("message", .str p.healthMessage),
                  ("timestamp", .str (w.formatTime w.now))])] }
        calls := [] } := by
    unfold healthHandler
    simp only [Encode_fresh _ _ _ hm]
  rw [hex]
  refine ⟨rfl, rfl, rfl, ?_, ?_, rfl⟩
  · cases p
    · exact ⟨"Service1 is ".data, [], rfl⟩
    · exact ⟨"Service2 is ".data, [], rfl⟩
  · intro x hx
    simp only [List.cons.injEq, BodyPart.json.injEq, and_true] at hx
    subst hx
    exact ⟨rfl, rfl⟩

/-! ### Decoding a peer response -/

/-- Agreement on a field is reflexive. -/
theorem Response.sameAt_refl (f : Field) (a : Response) : Response.sameAt f a a := by
  cases f <;> rfl

/-- Agreement on a field is transitive. -/
theorem Response.sameAt_trans (f : Field) (a b c : Response)
    (hab : Response.sameAt f a b) (hbc : Response.sameAt f b c) : Response.sameAt f a c := by
  cases f <;> exact Eq.trans hab hbc

/-- Storing a value that fits a field succeeds, saves no error and leaves the other
fields as they were. -/
theorem storeField_of_fits (w : World) (st : DecodeState) (f : Field) (x : JSON)
    (h : fits w f x = true) :
    ∃ st', storeField w st f x = .ok st' ∧ st'.savedError = st.savedError ∧
      ∀ f', f' ≠ f → Response.sameAt f' st'.value st.value := by
  cases f with
  | Service =>
    cases x <;> simp [fits] at h <;> simp [storeField] <;>
      (intro f' hf'; cases f' <;> first | rfl | exact absurd rfl hf')
  | Message =>
    cases x <;> simp [fits] at h <;> simp [storeField] <;>
      (intro f' hf'; cases f' <;> first | rfl | exact absurd rfl hf')
  | Timestamp =>
    cases x <;> simp [fits] at h
    · simp [storeField]
      intro f' hf'
      exact Response.sameAt_refl f' _
    · rename_i s
      cases hp : w.parseTime s with
      | error e => simp [hp] at h
      | ok t =>
        simp [storeField, hp]
        intro f' hf'
        cases f' <;> first | rfl | exact absurd rfl hf'
  | Data =>
    cases hd : decodeAny w x with
    | error e => simp [fits, hd] at h
    | ok g =>
      simp [storeField, hd]
      intro f' hf'
      cases f' <;> first | rfl | exact absurd rfl hf'

/-- Decoding the members of an object succeeds when every member that selects a
field holds a value that fits it; no error is saved, and a field that no member
selects keeps its value. -/
theorem storeMembers_of_fits (w : World) (kvs : List (String × JSON)) (st : DecodeState)
    (h : ∀ kv ∈ kvs, ∀ f, fieldFor w kv.1 = some f → fits w f kv.2 = true) :
    ∃ st', storeMembers w kvs st = .ok st' ∧ st'.savedError = st.savedError ∧
      ∀ f, absent w f kvs → Response.sameAt f st'.value st.value := by
  induction kvs generalizing st with
  | nil =>
    exact ⟨st, rfl, rfl, fun f _ => Response.sameAt_refl f _⟩
  | cons kv kvs ih =>
    obtain ⟨k, x⟩ := kv
    have hrest : ∀ kv ∈ kvs, ∀ f, fieldFor w kv.1 = some f → fits w f kv.2 = true :=
      fun kv hkv => h kv (List.mem_cons_of_mem _ hkv)
    cases hf : fieldFor w k with
    | none =>
      obtain ⟨st', hst, hsaved, hsame⟩ := ih st hrest
      refine ⟨st', ?_, hsaved, ?_⟩
      · simp [storeMembers, hf, hst]
      · intro f habs
        exact hsame f (fun kv hkv => habs kv (List.mem_cons_of_mem _ hkv))
    | some f =>
      obtain ⟨st₁, hst₁, hsaved₁, hsame₁⟩ :=
        storeField_of_fits w st f x (h (k, x) (List.mem_cons_self _ _) f hf)
      obtain ⟨st', hst, hsaved, hsame⟩ := ih st₁ hrest
      refine ⟨st', ?_, hsaved.trans hsaved₁, ?_⟩
      · simp [storeMembers, hf, hst₁, hst]
      · intro f' habs
        have hne : f' ≠ f := by
          intro heq
          subst heq
          exact habs (k, x) (List.mem_cons_self _ _) hf
        exact Response.sameAt_trans f' _ _ _
          (hsame f' (fun kv hkv => habs kv (List.mem_cons_of_mem _ hkv)))
          (hsame₁ f' hne)

/-- After a successful decoding the relay handler does not reply 500, and the reply
that the server sends for it has status 200, whether or not the encoder accepted the
reply. -/
theorem relay_decoded_status (w : World) (p : Peer) (client : HTTPClient) (url : String)
    (resp : HTTPResponse) (body : String) (inner : Response)
    (hg : w.get client url = .ok resp) (hb : resp.Body = .ok body)
    (hu : Unmarshal w body {} = .ok inner) :
    (relay w p client {} url).rw.status ≠ 500 ∧
    (relay w p client {} url).finish.rw.status = 200 := by
  rw [relay_after_decode w p client url resp body inner hg hb hu]
  cases hm : Marshal w (relayReply w p inner) with
  | error e =>
    rw [Encode_refused _ _ _ hm]
    exact ⟨by simp, rfl⟩
  | ok x =>
    rw [Encode_fresh _ _ _ hm]
    exact ⟨by simp, rfl⟩

/-- C7, as the code has it: a peer body that is a JSON object is decoded member by
member, and a field that no member selects is not an error.  When every member that
selects a field of `Response` holds a value that fits it, `json.Unmarshal` succeeds,
each field without a member has its zero value, the relay handler does not reply
500, and when the encoder accepts the decoded timestamp (as it does when the
timestamp is missing) the handler replies 200 with the zero-defaulted response
nested in its own.  The handler replies 500, with the text for a failed decoding,
exactly when `json.Unmarshal` returns an error. -/
theorem missing_fields_default (w : World) (v : Variant) (p : Peer) (client : HTTPClient)
    (peerURL : String) (resp : HTTPResponse) (body : String) (kvs : List (String × JSON))
    (hg : w.get client (relayTarget v p peerURL) = .ok resp)
    (hb : resp.Body = .ok body)
    (hs : w.scan body = .ok (.obj kvs)) :
    ((∀ kv ∈ kvs, ∀ f, fieldFor w kv.1 = some f → fits w f kv.2 = true) →
      ∃ inner, Unmarshal w body {} = .ok inner ∧
        (absent w .Service kvs → inner.Service = "") ∧
        (absent w .Message kvs → inner.Message = "") ∧
        (absent w .Timestamp kvs → inner.Timestamp = Time.zero) ∧
        (absent w .Data kvs → inner.Data = .nil) ∧
        (callServiceHandler w v p client {} peerURL).rw.status ≠ 500 ∧
        (callServiceHandler w v p client {} peerURL).finish.rw.status = 200 ∧
        (absent w .Timestamp kvs → inner.Timestamp.encodable = true) ∧
        (inner.Timestamp.encodable = true →
          ∃ x, Marshal w inner = .ok x ∧
            (callServiceHandler w v p client {} peerURL).rw.status = 200 ∧
            (callServiceHandler w v p client {} peerURL).rw.body
              = [.json (.obj [("service", .str p.name),
                  ("message", .str ("Successfully called " ++ p.other.name ++ " via mTLS")),
                  ("timestamp", .str (w.formatTime w.now)),
                  ("data", x)])])) ∧
    ((callServiceHandler w v p client {} peerURL).rw.status = 500 ↔
      ∃ err, Unmarshal w body {} = .error err) ∧
    (∀ err, Unmarshal w body {} = .error err →
      (callServiceHandler w v p client {} peerURL).rw.body
        = [.text ("Failed to parse response from " ++ p.other.name ++ ": " ++ err ++ "\n")]) := by
  have hparse : p.parseFailed = "Failed to parse response from " ++ p.other.name ++ ": " := by
    cases p <;> decide
  refine ⟨?_, ?_, ?_⟩
  · intro hfit
    obtain ⟨st, hst, hsaved, hsame⟩ :=
      storeMembers_of_fits w kvs { value := {}, savedError := none } hfit
    have hu : Unmarshal w body {} = .ok st.value := by
      simp only [Unmarshal, hs, unmarshalValue, hst]
      simp only [hsaved]
    obtain ⟨hne, hfin⟩ := relay_decoded_status w p client _ resp body st.value hg hb hu
    refine ⟨st.value, hu, hsame .Service, hsame .Message, hsame .Timestamp, hsame .Data,
      ?_, ?_, ?_, ?_⟩
    · rw [callServiceHandler_eq]
      exact hne
    · rw [callServiceHandler_eq]
      exact hfin
    · intro habs
      have hz : st.value.Timestamp = Time.zero := hsame .Timestamp habs
      rw [hz]
      exact zero_encodable
    · intro hts
      obtain ⟨x, -, hx, -⟩ := Marshal_decoded w body st.value hu hts
      obtain ⟨hstatus, -, hbody⟩ :=
        relay_encoded w v p client peerURL resp body st.value x hg hb hu hx
      exact ⟨x, hx, hstatus, hbody⟩
  · rw [callServiceHandler_eq]
    cases hu : Unmarshal w body {} with
    | error e =>
      rw [relay_parse_error w p client _ resp body e hg hb hu]
      simp [Error_fresh, StatusInternalServerError]
    | ok inner =>
      have hne := (relay_decoded_status w p client _ resp body inner hg hb hu).1
      simp [hne]
  · intro err hu
    rw [callServiceHandler_eq, relay_parse_error w p client _ resp body err hg hb hu,
      Error_fresh, hparse]

/-- Witness for C7: service1 in the world whose peer answers with two braces. -/
theorem missing_fields_default_witness :
    emptyObjectWorld.get sampleBaseClient (relayTarget .base .service1 "")
      = .ok { StatusCode := 200, Body := .ok emptyObjectBody } ∧
    emptyObjectWorld.scan emptyObjectBody = .ok (.obj []) ∧
    ∃ inner, Unmarshal emptyObjectWorld emptyObjectBody {} = .ok inner ∧
      (absent emptyObjectWorld .Service [] → inner.Service = "") ∧
      (absent emptyObjectWorld .Message [] → inner.Message = "") ∧
      (absent emptyObjectWorld .Timestamp [] → inner.Timestamp = Time.zero) ∧
      (absent emptyObjectWorld .Data [] → inner.Data = .nil) ∧
      (callServiceHandler emptyObjectWorld .base .service1 sampleBaseClient {} "").rw.status
        ≠ 500 :=
  ⟨rfl, rfl,
    match (missing_fields_default emptyObjectWorld .base .service1 sampleBaseClient ""
      { StatusCode := 200, Body := .ok emptyObjectBody } emptyObjectBody [] rfl rfl rfl).1
      (fun _ h => nomatch h) with
    | ⟨inner, hu, h1, h2, h3, h4, h5, _⟩ => ⟨inner, hu, h1, h2, h3, h4, h5⟩⟩

/-- C7, counterexample: the body of two braces is valid JSON without any of the
fields `service`, `message` and `timestamp`, yet the relay handler of service1 does
not reply 500: it replies 200 and relays a response of zero values. -/
theorem missing_fields_relayed :
    emptyObjectWorld.get sampleBaseClient (relayTarget .base .service1 "")
      = .ok { StatusCode := 200, Body := .ok emptyObjectBody } ∧
    emptyObjectWorld.scan emptyObjectBody = .ok (.obj []) ∧
    (JSON.obj []).member "service" = none ∧
    (JSON.obj []).member "message" = none ∧
    (JSON.obj []).member "timestamp" = none ∧
    (callServiceHandler emptyObjectWorld .base .service1 sampleBaseClient {} "").rw.status
      ≠ 500 ∧
    (callServiceHandler emptyObjectWorld .base .service1 sampleBaseClient {} "").rw.status
      = 200 ∧
    (callServiceHandler emptyObjectWorld .base .service1 sampleBaseClient {} "").rw.body
      = [.json (.obj [("service", .str "service1"),
          ("message", .str "Successfully called service2 via mTLS"),
          ("timestamp", .str "2024-01-01T00:00:00Z"),
          ("data", .obj [("service", .str ""), ("message", .str ""),
            ("timestamp", .str "0001-01-01T00:00:00Z")])])] :=
  ⟨rfl, rfl, rfl, rfl, rfl, by with_unfolding_all decide, by with_unfolding_all rfl,
    by with_unfolding_all rfl⟩

/-! ### Generic decoding of encoded values -/

/-- Insertion keeps the members. -/
theorem mem_insertMember (kv x : String × JSON) (xs : List (String × JSON)) :
    x ∈ insertMember kv xs ↔ x = kv ∨ x ∈ xs := by
  induction xs with
  | nil => simp [insertMember]
  | cons y ys ih =>
    unfold insertMember
    split
    · simp
    · simp [ih]
      tauto

/-- Sorting keeps the members. -/
theorem mem_sortMembers (x : String × JSON) (xs : List (String × JSON)) :
    x ∈ sortMembers xs ↔ x ∈ xs := by
  induction xs with
  | nil => simp [sortMembers]
  | cons y ys ih => simp [sortMembers, mem_insertMember, ih]

/-- Members whose values all decode are decoded into a map. -/
theorem decodeMembers_ok (w : World) (kvs : List (String × JSON))
    (m : List (String × GoValue))
    (h : ∀ kv ∈ kvs, ∃ g, decodeAny w kv.2 = .ok g) :
    ∃ m', decodeMembers w kvs m = .ok m' := by
  induction kvs generalizing m with
  | nil => exact ⟨m, by simp [decodeMembers]⟩
  | cons kv kvs ih =>
    obtain ⟨k, x⟩ := kv
    obtain ⟨g, hg⟩ := h (k, x) (List.mem_cons_self _ _)
    obtain ⟨m', hm'⟩ := ih (setKey k g m) (fun kv hkv => h kv (List.mem_cons_of_mem _ hkv))
    exact ⟨m', by simp [decodeMembers, hg, hm']⟩

/-- Strings decode as strings. -/
theorem decodeAnys_strs (w : World) (xs : List String) :
    decodeAnys w (xs.map JSON.str) = .ok (xs.map GoValue.string) := by
  induction xs with
  | nil => simp [decodeAnys]
  | cons x xs ih => simp [decodeAnys, decodeAny, ih]

mutual
/-- The encoding of a Go value decodes generically when the number literals that
the encoder writes are accepted by `strconv.ParseFloat`. -/
theorem decodeAny_marshalValue (w : World)
    (hint : ∀ n : Int, ∃ f, w.parseFloat (intLit n) = .ok f)
    (hfloat : ∀ f : Float64, f.isFinite = true →
      ∃ f', w.parseFloat (w.formatFloat f) = .ok f') :
    ∀ (v : GoValue) (x : JSON), marshalValue w v = .ok x → ∃ g, decodeAny w x = .ok g
  | .nil, x, h => by
    simp only [marshalValue, Except.ok.injEq] at h
    subst h
    exact ⟨.nil, by simp [decodeAny]⟩
  | .bool b, x, h => by
    simp only [marshalValue, Except.ok.injEq] at h
    subst h
    exact ⟨.bool b, by simp [decodeAny]⟩
  | .int n, x, h => by
    simp only [marshalValue, Except.ok.injEq] at h
    subst h
    obtain ⟨f, hf⟩ := hint n
    exact ⟨.float64 f, by simp [decodeAny, hf]⟩
  | .float64 f, x, h => by
    rw [marshalValue] at h
    by_cases hfin : f.isFinite = true
    · simp only [hfin, if_true, Except.ok.injEq] at h
      subst h
      obtain ⟨f', hf⟩ := hfloat f hfin
      exact ⟨.float64 f', by simp [decodeAny, hf]⟩
    · simp [hfin] at h
  | .string s, x, h => by
    simp only [marshalValue, Except.ok.injEq] at h
    subst h
    exact ⟨.string s, by simp [decodeAny]⟩
  | .strings xs, x, h => by
    simp only [marshalValue, Except.ok.injEq] at h
    subst h
    exact ⟨.slice (xs.map GoValue.string), by simp [decodeAny, decodeAnys_strs]⟩
  | .slice vs, x, h => by
    rw [marshalValue] at h
    cases hvs : marshalValues w vs with
    | error e => simp [hvs] at h
    | ok xs =>
      simp only [hvs, Except.ok.injEq] at h
      subst h
      obtain ⟨gs, hgs⟩ := decodeAnys_marshalValues w hint hfloat vs xs hvs
      exact ⟨.slice gs, by simp [decodeAny, hgs]⟩
  | .map kvs, x, h => by
    rw [marshalValue] at h
    cases hkvs : marshalMembers w kvs with
    | error e => simp [hkvs] at h
    | ok ys =>
      simp only [hkvs, Except.ok.injEq] at h
      subst h
      obtain ⟨m, hm⟩ := decodeMembers_ok w (sortMembers ys) []
        (fun kv hkv => marshalMembers_decodable w hint hfloat kvs ys hkvs kv
          ((mem_sortMembers kv _).1 hkv))
      exact ⟨.map m, by simp [decodeAny, hm]⟩
  | .response s m t d, x, h => by
    have ih := decodeAny_marshalValue w hint hfloat d
    rw [marshalValue_response] at h
    cases hmt : w.marshalTime t with
    | error e => simp [hmt] at h
    | ok text =>
      simp only [hmt] at h
      have hthree : ∀ kv ∈ [("service", JSON.str s), ("message", JSON.str m),
          ("timestamp", JSON.str text)], ∃ g, decodeAny w kv.2 = .ok g := by
        intro kv hkv
        simp only [List.mem_cons, List.mem_singleton, List.not_mem_nil, or_false] at hkv
        rcases hkv with rfl | rfl | rfl
        · exact ⟨.string s, by simp [decodeAny]⟩
        · exact ⟨.string m, by simp [decodeAny]⟩
        · exact ⟨.string text, by simp [decodeAny]⟩
      by_cases hd : d = .nil
      · subst hd
        simp only [Except.ok.injEq] at h
        subst h
        obtain ⟨m', hm'⟩ := decodeMembers_ok w _ [] hthree
        exact ⟨.map m', by simp [decodeAny, hm']⟩
      · cases hmd : marshalValue w d with
        | error e => cases d <;> first | exact absurd rfl hd | simp [hmd] at h
        | ok y =>
          obtain ⟨g, hg⟩ := ih y hmd
          have hx : x = .obj [("service", .str s), ("message", .str m),
              ("timestamp", .str text), ("data", y)] := by
            cases d <;> first | exact absurd rfl hd | (simp [hmd] at h; exact h.symm)
          subst hx
          have hfour : ∀ kv ∈ [("service", JSON.str s), ("message", JSON.str m),
              ("timestamp", JSON.str text), ("data", y)], ∃ g, decodeAny w kv.2 = .ok g := by
            intro kv hkv
            simp only [List.mem_cons, List.mem_singleton, List.not_mem_nil, or_false] at hkv
            rcases hkv with rfl | rfl | rfl | rfl
            · exact ⟨.string s, by simp [decodeAny]⟩
            · exact ⟨.string m, by simp [decodeAny]⟩
            · exact ⟨.string text, by simp [decodeAny]⟩
            · exact ⟨g, hg⟩
          obtain ⟨m', hm'⟩ := decodeMembers_ok w _ [] hfour
          exact ⟨.map m', by simp [decodeAny, hm']⟩
/-- The encodings of the elements of a slice decode generically. -/
theorem decodeAnys_marshalValues (w : World)
    (hint : ∀ n : Int, ∃ f, w.parseFloat (intLit n) = .ok f)
    (hfloat : ∀ f : Float64, f.isFinite = true →
      ∃ f', w.parseFloat (w.formatFloat f) = .ok f') :
    ∀ (vs : List GoValue) (xs : List JSON), marshalValues w vs = .ok xs →
      ∃ gs, decodeAnys w xs = .ok gs
  | [], xs, h => by
    simp only [marshalValues, Except.ok.injEq] at h
    subst h
    exact ⟨[], by simp [decodeAnys]⟩
  | v :: vs, xs, h => by
    rw [marshalValues] at h
    cases hv : marshalValue w v with
    | error e => simp [hv] at h
    | ok y =>
      cases hvs : marshalValues w vs with
      | error e => simp [hv, hvs] at h
      | ok ys =>
        simp only [hv, hvs, Except.ok.injEq] at h
        subst h
        obtain ⟨g, hg⟩ := decodeAny_marshalValue w hint hfloat v y hv
        obtain ⟨gs, hgs⟩ := decodeAnys_marshalValues w hint hfloat vs ys hvs
        exact ⟨g :: gs, by simp [decodeAnys, hg, hgs]⟩
/-- The encodings of the values of a map decode generically. -/
theorem marshalMembers_decodable (w : World)
    (hint : ∀ n : Int, ∃ f, w.parseFloat (intLit n) = .ok f)
    (hfloat : ∀ f : Float64, f.isFinite = true →
      ∃ f', w.parseFloat (w.formatFloat f) = .ok f') :
    ∀ (kvs : List (String × GoValue)) (ys : List (String × JSON)),
      marshalMembers w kvs = .ok ys → ∀ kv ∈ ys, ∃ g, decodeAny w kv.2 = .ok g
  | [], ys, h, kv, hkv => by
    simp only [marshalMembers, Except.ok.injEq] at h
    subst h
    simp at hkv
  | (k, v) :: kvs, ys, h, kv, hkv => by
    rw [marshalMembers] at h
    cases hv : marshalValue w v with
    | error e => simp [hv] at h
    | ok y =>
      cases hkvs : marshalMembers w kvs with
      | error e => simp [hv, hkvs] at h
      | ok ys' =>
        simp only [hv, hkvs, Except.ok.injEq] at h
        subst h
        rcases List.mem_cons.1 hkv with rfl | hkv
        · exact decodeAny_marshalValue w hint hfloat v y hv
        · exact marshalMembers_decodable w hint hfloat kvs ys' hkvs kv hkv
end

/-! ### Encoding and decoding a `Response` -/

/-- Decoding an object with the members `service`, `message` and `timestamp`, all
strings, of which the last one parses as a time. -/
theorem unmarshalValue_three (w : World) (s m text : String) (t : Time)
    (ht : w.parseTime text = .ok t) :
    unmarshalValue w {}
        (.obj [("service", .str s), ("message", .str m), ("timestamp", .str text)])
      = .ok { Service := s, Message := m, Timestamp := t, Data := .nil } := by
  have hfs : fieldFor w "service" = some .Service := rfl
  have hfm : fieldFor w "message" = some .Message := rfl
  have hft : fieldFor w "timestamp" = some .Timestamp := rfl
  simp [unmarshalValue, storeMembers, storeField, hfs, hfm, hft, ht]

/-- Decoding an object with the members `service`, `message`, `timestamp` and
`data`: the data is decoded generically, and its failure is the failure of the
whole. -/
theorem unmarshalValue_four (w : World) (s m text : String) (t : Time) (xd : JSON)
    (ht : w.parseTime text = .ok t) :
    unmarshalValue w {}
        (.obj [("service", .str s), ("message", .str m), ("timestamp", .str text),
               ("data", xd)])
      = match decodeAny w xd with
        | .error e => .error e
        | .ok g => .ok { Service := s, Message := m, Timestamp := t, Data := g } := by
  have hfs : fieldFor w "service" = some .Service := rfl
  have hfm : fieldFor w "message" = some .Message := rfl
  have hft : fieldFor w "timestamp" = some .Timestamp := rfl
  have hfd : fieldFor w "data" = some .Data := rfl
  cases hd : decodeAny w xd <;>
    simp [unmarshalValue, storeMembers, storeField, storeField_Data, hfs, hfm, hft, hfd, ht,
      hd, DecodeState.saveError]

/-- C8, as the code has it: a response that a handler fills, with the clock reading
as its timestamp and data that the encoder accepts, is encoded without error, and
decoding the encoding gives this: it fails only when the generic decoding of the
encoded data fails (a number that `strconv.ParseFloat` refuses); otherwise it
succeeds, the result has the same service and message, a timestamp of the same
instant to the nanosecond (so also to the second) in the same zone, and as data the
generic decoding of the encoded data, which is the original data when that is nil;
and the generic decoding succeeds whenever `strconv.ParseFloat` accepts the number
literals that the encoder writes. -/
theorem roundtrip_generic (w : World) (r : Response) (xd : JSON)
    (hnow : r.Timestamp = w.now) (hxd : marshalValue w r.Data = .ok xd) :
    ∃ x, Marshal w r = .ok x ∧
      (∀ e, decodeAny w xd = .error e → unmarshalValue w {} x = .error e) ∧
      (∀ g, decodeAny w xd = .ok g →
        ∃ r', unmarshalValue w {} x = .ok r' ∧
          r'.Service = r.Service ∧ r'.Message = r.Message ∧
          r'.Timestamp.unixNano = r.Timestamp.unixNano ∧
          r'.Timestamp.offset = r.Timestamp.offset ∧
          r'.Timestamp.unix = r.Timestamp.unix ∧
          r'.Data = g ∧ (r.Data = .nil → r'.Data = r.Data)) ∧
      ((∀ n : Int, ∃ f, w.parseFloat (intLit n) = .ok f) →
        (∀ f : Float64, f.isFinite = true →
          ∃ f', w.parseFloat (w.formatFloat f) = .ok f') →
        ∃ g, decodeAny w xd = .ok g) := by
  have hclock : r.Timestamp.clockReading = true := by
    rw [hnow]
    exact w.nowInRange
  have henc : r.Timestamp.encodable = true := by
    rw [hnow]
    exact now_encodable w
  have hparse := parseTime_formatTime w r.Timestamp hclock
  by_cases hd : r.Data = .nil
  · have hnull : xd = .null := by
      rw [hd] at hxd
      simp only [marshalValue, Except.ok.injEq] at hxd
      exact hxd.symm
    subst hnull
    refine ⟨_, Marshal_nil w r henc hd, ?_, ?_,
      fun hint hfloat => decodeAny_marshalValue w hint hfloat r.Data _ hxd⟩
    · intro e he
      simp [decodeAny] at he
    · intro g hg
      simp only [decodeAny, Except.ok.injEq] at hg
      subst hg
      exact ⟨_, unmarshalValue_three w _ _ _ _ hparse, rfl, rfl, rfl, rfl, rfl, rfl,
        fun h => h.symm⟩
  · refine ⟨_, Marshal_data w r xd henc hd hxd, ?_, ?_,
      fun hint hfloat => decodeAny_marshalValue w hint hfloat r.Data xd hxd⟩
    · intro e he
      rw [unmarshalValue_four w _ _ _ _ xd hparse, he]
    · intro g hg
      refine ⟨{ Service := r.Service, Message := r.Message,
                Timestamp := { unixNano := r.Timestamp.unixNano, offset := r.Timestamp.offset,
                               monotonic := none },
                Data := g }, ?_, rfl, rfl, rfl, rfl, rfl, rfl, fun h => absurd h hd⟩
      rw [unmarshalValue_four w _ _ _ _ xd hparse, hg]

/-- Witness for C8: the reply of `dataHandler` in the sample world. -/
theorem roundtrip_generic_witness :
    (dataReply sampleWorld).Timestamp = sampleWorld.now ∧
    marshalValue sampleWorld (dataReply sampleWorld).Data = .ok dataReplyJSON ∧
    decodeAny sampleWorld dataReplyJSON = .ok dataReplyDecoded.Data ∧
    ∃ r', unmarshalValue sampleWorld {} dataEnvelopeJSON = .ok r' ∧
      r'.Service = (dataReply sampleWorld).Service ∧
      r'.Message = (dataReply sampleWorld).Message ∧
      r'.Timestamp.unixNano = (dataReply sampleWorld).Timestamp.unixNano ∧
      r'.Timestamp.offset = (dataReply sampleWorld).Timestamp.offset ∧
      r'.Timestamp.unix = (dataReply sampleWorld).Timestamp.unix ∧
      r'.Data = dataReplyDecoded.Data ∧
      ((dataReply sampleWorld).Data = .nil → r'.Data = (dataReply sampleWorld).Data) := by
  obtain ⟨x, hx, -, hok, -⟩ :=
    roundtrip_generic sampleWorld (dataReply sampleWorld) dataReplyJSON rfl rfl
  have hx' : Marshal sampleWorld (dataReply sampleWorld) = .ok dataEnvelopeJSON := by
    with_unfolding_all rfl
  rw [hx'] at hx
  cases hx
  exact ⟨rfl, rfl, rfl, hok dataReplyDecoded.Data rfl⟩

/-- C8, counterexample: the response that `dataHandler` encodes does not come back
equal in its data, since the decoded map holds a float64 under `count` where the
original holds an int and a slice of interfaces under `users` where the original
holds a slice of strings; and the response that the relay handler encodes comes back
with a map as data where the original holds a `Response`. -/
theorem roundtrip_changes_data :
    Marshal sampleWorld (dataReply sampleWorld) = .ok dataEnvelopeJSON ∧
    (dataHandler sampleWorld {}).rw.body = [.json dataEnvelopeJSON] ∧
    unmarshalValue sampleWorld {} dataEnvelopeJSON = .ok dataReplyDecoded ∧
    dataReplyDecoded.Data ≠ (dataReply sampleWorld).Data ∧
    (dataReply sampleWorld).Data.entry "count" = some (.int 3) ∧
    dataReplyDecoded.Data.entry "count" = some (.float64 { bits := 0x4008000000000000 }) ∧
    Marshal sampleWorld (relayReply sampleWorld .service1 sampleHealthResponse)
      = .ok relayEnvelopeJSON ∧
    (callServiceHandler sampleWorld .base .service1 sampleBaseClient {} "").rw.body
      = [.json relayEnvelopeJSON] ∧
    unmarshalValue sampleWorld {} relayEnvelopeJSON = .ok relayReplyDecoded ∧
    relayReplyDecoded.Data
      ≠ (relayReply sampleWorld .service1 sampleHealthResponse).Data :=
  ⟨by with_unfolding_all rfl, by with_unfolding_all rfl, rfl,
    by simp [dataReplyDecoded, dataReply], rfl, rfl,
    by with_unfolding_all rfl, by with_unfolding_all rfl, rfl,
    by simp [relayReplyDecoded, relayReply, Response.toValue]⟩

/-! ### The peer status code -/

mutual
/-- Encoding a value reads only the number formatting of the world. -/
theorem marshalValue_frame (w w' : World) (hf : w'.formatFloat = w.formatFloat) :
    ∀ v : GoValue, marshalValue w' v = marshalValue w v
  | .nil => by simp [marshalValue]
  | .bool b => by simp [marshalValue]
  | .int n => by simp [marshalValue]
  | .float64 f => by simp [marshalValue, hf]
  | .string s => by simp [marshalValue]
  | .strings xs => by simp [marshalValue]
  | .slice xs => by simp [marshalValue, marshalValues_frame w w' hf xs]
  | .map kvs => by simp [marshalValue, marshalMembers_frame w w' hf kvs]
  | .response s m t d => by
    have hd := marshalValue_frame w w' hf d
    have ht : w'.marshalTime t = w.marshalTime t := rfl
    rw [marshalValue_response, marshalValue_response, ht]
    cases w.marshalTime t with
    | error e => rfl
    | ok text => cases d <;> simp_all
/-- Encoding the elements of a slice reads only the number formatting of the world. -/
theorem marshalValues_frame (w w' : World) (hf : w'.formatFloat = w.formatFloat) :
    ∀ xs : List GoValue, marshalValues w' xs = marshalValues w xs
  | [] => by simp [marshalValues]
  | x :: xs => by
    simp [marshalValues, marshalValue_frame w w' hf x, marshalValues_frame w w' hf xs]
/-- Encoding the members of a map reads only the number formatting of the world. -/
theorem marshalMembers_frame (w w' : World) (hf : w'.formatFloat = w.formatFloat) :
    ∀ kvs : List (String × GoValue), marshalMembers w' kvs = marshalMembers w kvs
  | [] => by simp [marshalMembers]
  | (k, v) :: kvs => by
    simp [marshalMembers, marshalValue_frame w w' hf v, marshalMembers_frame w w' hf kvs]
end

mutual
/-- Generic decoding reads only the number parsing of the world. -/
theorem decodeAny_frame (w w' : World) (hp : w'.parseFloat = w.parseFloat) :
    ∀ x : JSON, decodeAny w' x = decodeAny w x
  | .null => by simp [decodeAny]
  | .bool b => by simp [decodeAny]
  | .num lit => by simp [decodeAny, hp]
  | .str s => by simp [decodeAny]
  | .arr xs => by simp [decodeAny, decodeAnys_frame w w' hp xs]
  | .obj kvs => by simp [decodeAny, decodeMembers_frame w w' hp kvs]
/-- Generic decoding of the elements of an array reads only the number parsing. -/
theorem decodeAnys_frame (w w' : World) (hp : w'.parseFloat = w.parseFloat) :
    ∀ xs : List JSON, decodeAnys w' xs = decodeAnys w xs
  | [] => by simp [decodeAnys]
  | x :: xs => by
    simp [decodeAnys, decodeAny_frame w w' hp x, decodeAnys_frame w w' hp xs]
/-- Generic decoding of the members of an object reads only the number parsing. -/
theorem decodeMembers_frame (w w' : World) (hp : w'.parseFloat = w.parseFloat) :
    ∀ (kvs : List (String × JSON)) (m : List (String × GoValue)),
      decodeMembers w' kvs m = decodeMembers w kvs m
  | [], m => by simp [decodeMembers]
  | (k, x) :: kvs, m => by
    rw [decodeMembers, decodeMembers, decodeAny_frame w w' hp x]
    cases decodeAny w x with
    | error e => rfl
    | ok g => exact decodeMembers_frame w w' hp kvs (setKey k g m)
end

/-- Storing a value into a field reads only the number parsing of the world. -/
theorem storeField_frame (w w' : World) (hp : w'.parseFloat = w.parseFloat)
    (st : DecodeState) (f : Field) (x : JSON) :
    storeField w' st f x = storeField w st f x := by
  cases f with
  | Service => cases x <;> rfl
  | Message => cases x <;> rfl
  | Timestamp => cases x <;> rfl
  | Data => rw [storeField_Data, storeField_Data, decodeAny_frame w w' hp x]

/-- Decoding the members of an object reads only the number parsing and the case
folding of the world. -/
theorem storeMembers_frame (w w' : World) (hp : w'.parseFloat = w.parseFloat)
    (hfold : w'.foldName = w.foldName)
    (kvs : List (String × JSON)) (st : DecodeState) :
    storeMembers w' kvs st = storeMembers w kvs st := by
  induction kvs generalizing st with
  | nil => rfl
  | cons kv kvs ih =>
    obtain ⟨k, x⟩ := kv
    have hff : fieldFor w' k = fieldFor w k := by
      simp [fieldFor, foldedField, hfold]
    rw [storeMembers, storeMembers, hff]
    cases fieldFor w k with
    | none => exact ih st
    | some f =>
      simp only [storeField_frame w w' hp st f x]
      cases storeField w st f x with
      | error e => rfl
      | ok st' => exact ih st'

/-- Replacing what `Get` returns does not change how a body is decoded. -/
theorem Unmarshal_frame (w : World) (get₂ : HTTPClient → String → Except String HTTPResponse)
    (data : String) (init : Response) :
    Unmarshal { w with get := get₂ } data init = Unmarshal w data init := by
  unfold Unmarshal
  show (match w.scan data with
    | Except.error e => (Except.error e : Except String Response)
    | Except.ok x => unmarshalValue { w with get := get₂ } init x) = _
  cases w.scan data with
  | error e => rfl
  | ok x =>
    cases x <;> first
      | rfl
      | simp only [unmarshalValue, storeMembers_frame w { w with get := get₂ } rfl rfl]

/-- Replacing what `Get` returns does not change how a response is encoded. -/
theorem Marshal_frame (w : World) (get₂ : HTTPClient → String → Except String HTTPResponse)
    (r : Response) :
    Marshal { w with get := get₂ } r = Marshal w r :=
  marshalValue_frame w { w with get := get₂ } rfl r.toValue

/-- C11, as the code has it: in all four programs the reply of the relay handler
does not depend on the status code of the peer response.  When the world is changed
only in what `Get` returns, and the two responses returned for the relay URL have
the same body (whatever their status codes), the handler makes the same call and
writes the same status, headers and body; so a peer response of any status code,
500 for one, whose body decodes into a `Response` with a timestamp that the encoder
accepts is relayed with status 200 as a nested response. -/
theorem relay_ignores_status (w : World) (v : Variant) (p : Peer) (client : HTTPClient)
    (peerURL : String) (get₂ : HTTPClient → String → Except String HTTPResponse)
    (resp₁ resp₂ : HTTPResponse)
    (h₁ : w.get client (relayTarget v p peerURL) = .ok resp₁)
    (h₂ : get₂ client (relayTarget v p peerURL) = .ok resp₂)
    (hbody : resp₂.Body = resp₁.Body) :
    callServiceHandler { w with get := get₂ } v p client {} peerURL
      = callServiceHandler w v p client {} peerURL ∧
    (∀ body inner, resp₂.Body = .ok body → Unmarshal w body {} = .ok inner →
      inner.Timestamp.encodable = true →
      ∃ x, Marshal w inner = .ok x ∧
        (callServiceHandler { w with get := get₂ } v p client {} peerURL).rw.status = 200 ∧
        (callServiceHandler { w with get := get₂ } v p client {} peerURL).rw.body
          = [.json (.obj [("service", .str p.name),
              ("message", .str ("Successfully called " ++ p.other.name ++ " via mTLS")),
              ("timestamp", .str (w.formatTime w.now)),
              ("data", x)])]) := by
  have heq : callServiceHandler { w with get := get₂ } v p client {} peerURL
      = callServiceHandler w v p client {} peerURL := by
    rw [callServiceHandler_eq, callServiceHandler_eq]
    unfold relay
    simp only [h₁, h₂, hbody]
    cases resp₁.Body with
    | error e => rfl
    | ok body =>
      simp only [Unmarshal_frame]
      cases Unmarshal w body {} with
      | error e => rfl
      | ok inner =>
        simp only [Encode, Marshal_frame]
  refine ⟨heq, ?_⟩
  intro body inner hb hu hts
  obtain ⟨x, -, hx, -⟩ := Marshal_decoded w body inner hu hts
  obtain ⟨hstatus, -, hbody'⟩ :=
    relay_encoded w v p client peerURL resp₁ body inner x h₁ (hbody ▸ hb) hu hx
  rw [heq]
  exact ⟨x, hx, hstatus, hbody'⟩

/-- Witness for C11: the peer of service1 answers with status 500 and the body of a
health reply; the relay handler replies as it does for status 200, which is with
status 200. -/
theorem relay_ignores_status_witness :
    sampleWorld.get sampleBaseClient (relayTarget .base .service1 "")
      = .ok { StatusCode := 200, Body := .ok sampleHealthBody } ∧
    errorStatusWorld.get sampleBaseClient (relayTarget .base .service1 "")
      = .ok { StatusCode := 500, Body := .ok sampleHealthBody } ∧
    callServiceHandler errorStatusWorld .base .service1 sampleBaseClient {} ""
      = callServiceHandler sampleWorld .base .service1 sampleBaseClient {} "" ∧
    (callServiceHandler errorStatusWorld .base .service1 sampleBaseClient {} "").rw.status
      = 200 :=
  ⟨rfl, rfl,
    (relay_ignores_status sampleWorld .base .service1 sampleBaseClient ""
      (fun _ _ => .ok { StatusCode := 500, Body := .ok sampleHealthBody })
      { StatusCode := 200, Body := .ok sampleHealthBody }
      { StatusCode := 500, Body := .ok sampleHealthBody } rfl rfl rfl).1,
    by with_unfolding_all rfl⟩

/-- C11, counterexample: the peer of service1 answers with status 500 and a body
whose timestamp has a zone offset of 24 hours.  The body decodes into a `Response`,
but the encoder refuses the reply and the handler drops that error: the reply has
status 200 and an empty body, so no response is relayed. -/
theorem relay_status_500_unencodable :
    errorStatusZoneHourWorld.get sampleBaseClient (relayTarget .base .service1 "")
      = .ok { StatusCode := 500, Body := .ok zoneHourBody } ∧
    Unmarshal errorStatusZoneHourWorld zoneHourBody {} = .ok { Timestamp := zoneHourTime } ∧
    (callServiceHandler errorStatusZoneHourWorld .base .service1 sampleBaseClient {} "").rw.body
      = [] ∧
    (callServiceHandler errorStatusZoneHourWorld .base .service1 sampleBaseClient {}
      "").finish.rw.status = 200 :=
  ⟨rfl, rfl, by with_unfolding_all rfl, by with_unfolding_all rfl⟩

end MTLS
